import Mathlib

/-!
Shallow embedding of `src/tools/generate_ipp.py` (the IPP byte-stream
decoder of neverware-mirrors/virtual-usb-printer).

The byte stream is a `List Nat` (the Python `ascii_values` list, each
element a byte obtained from a 2-hex-digit token).  Every fallible Python
operation (an explicit `raise SystemExit`, or an implicit `KeyError` /
`IndexError`) is modelled as `Except Err _` with one constructor per
failure site.  The main loop of `main` (lines 267-301) is modelled by the
fueled recursion `walkF`; the cursor strictly increases on every
iteration, and `walkF_no_outOfFuel` shows the artificial `outOfFuel`
result never occurs for the fuel `main_parse` supplies.
-/

/-- Failure kinds of the script.  Each constructor corresponds to one
failure site of the Python source:
* `unsupportedDelimiter` — `get_delimiter_name`, line 43
* `unsupportedValueTag`  — `get_value_type`, line 72
* `outOfBounds`          — `check_data_boundary`, line 81
* `invalidFixedLength`   — the `length != N` checks of
  `extract_byte_value` / `extract_boolean_value` / `extract_integer_value`
  / `extract_resolution_value` / `extract_range_value`
* `valueTypeUnmapped`    — `extract_value`, line 200
* `readOutOfRange`       — a would-be Python `IndexError` on `data[i]`
  (shown unreachable: the boundary check always precedes the reads)
* `keyErrorNoGroup`      — Python `KeyError` on `attributes[group]` when
  the active group is `None` (value entry before any group delimiter)
* `indexErrorEmptyGroup` — Python `IndexError` on `attributes[group][-1]`
  in `extend_attribute_values` when the active group's list is empty
* `unterminatedMessage`  — the post-loop check, lines 299-301
* `outOfFuel`            — artificact of the fueled recursion, never
  returned when the fuel exceeds `data.length - i`. -/
inductive Err where
  | unsupportedDelimiter
  | unsupportedValueTag
  | outOfBounds
  | invalidFixedLength
  | valueTypeUnmapped
  | readOutOfRange
  | keyErrorNoGroup
  | indexErrorEmptyGroup
  | unterminatedMessage
  | outOfFuel
deriving DecidableEq, Repr

/-- A dynamically typed Python value as produced by the extractors:
strings, ints, booleans, and lists (octetString/dateTime byte arrays,
resolution triples, range pairs, and folded multi-value lists). -/
inductive PyVal where
  | str (s : String)
  | int (n : Nat)
  | bool (b : Bool)
  | list (l : List PyVal)

/-- Whether a `PyVal` is a Python `list` (the `type(...) is list` test of
`extend_attribute_values`). -/
def PyVal.isList : PyVal → Bool
  | .list _ => true
  | _ => false

/-- One entry of an attribute group: the dict
`{'type': ..., 'name': ..., 'value': ...}` built by `add_attribute`. -/
structure Attr where
  type : String
  name : String
  value : PyVal

/-- `is_ipp_delimiter` (lines 26-28). -/
def is_ipp_delimiter (ascii_val : Nat) : Bool :=
  ascii_val == 1 || ascii_val == 2 || ascii_val == 3 || ascii_val == 4

/-- `get_delimiter_name` (lines 33-43). -/
def get_delimiter_name (ipp_delimiter : Nat) : Except Err String :=
  match ipp_delimiter with
  | 1 => .ok "operationAttributes"
  | 2 => .ok "jobAttributes"
  | 3 => .ok "endOfAttributes"
  | 4 => .ok "printerAttributes"
  | _ => .error .unsupportedDelimiter

/-- `get_value_type` (lines 48-73). -/
def get_value_type (value_tag : Nat) : Except Err String :=
  match value_tag with
  | 0x13 => .ok "no-value"
  | 0x21 => .ok "integer"
  | 0x22 => .ok "boolean"
  | 0x23 => .ok "enum"
  | 0x30 => .ok "octetString"
  | 0x31 => .ok "dateTime"
  | 0x32 => .ok "resolution"
  | 0x33 => .ok "rangeOfInteger"
  | 0x34 => .ok "begCollection"
  | 0x37 => .ok "endCollection"
  | 0x41 => .ok "textWithoutLanguage"
  | 0x42 => .ok "nameWithoutLanguage"
  | 0x44 => .ok "keyword"
  | 0x45 => .ok "uri"
  | 0x46 => .ok "uriScheme"
  | 0x47 => .ok "charset"
  | 0x48 => .ok "naturalLanguage"
  | 0x49 => .ok "mimeMediaType"
  | 0x4a => .ok "memberAttrName"
  | _ => .error .unsupportedValueTag

/-- `check_data_boundary` (lines 78-81).  The Python test is
`len(data) - start < length` over (possibly negative) Python ints, which
is equivalent to `len(data) < start + length` over naturals. -/
def check_data_boundary (data : List Nat) (start : Nat) (length : Nat) :
    Except Err Unit :=
  if data.length < start + length then .error .outOfBounds else .ok ()

/-- Reads `n` bytes `data[start], ..., data[start+n-1]`, failing like a
Python `IndexError` if any index is out of range (this failure is proved
unreachable behind `check_data_boundary`). -/
def readExact (data : List Nat) : Nat → Nat → Except Err (List Nat)
  | _, 0 => .ok []
  | start, n + 1 =>
    match data[start]? with
    | none => .error .readOutOfRange
    | some b =>
      match readExact data (start + 1) n with
      | .error e => .error e
      | .ok bs => .ok (b :: bs)

/-- `extract_string_value` (lines 87-92): builds a string with one
character `chr(data[i])` per byte. -/
def extract_string_value (data : List Nat) (start : Nat) (length : Nat) :
    Except Err (String × Nat) :=
  match check_data_boundary data start length with
  | .error e => .error e
  | .ok _ =>
    match readExact data start length with
    | .error e => .error e
    | .ok bs => .ok (String.mk (bs.map (fun b => Char.ofNat b)), start + length)

/-- `extract_byte_value` (lines 98-103). -/
def extract_byte_value (data : List Nat) (start : Nat) (length : Nat) :
    Except Err (Nat × Nat) :=
  if length ≠ 1 then .error .invalidFixedLength
  else
    match check_data_boundary data start length with
    | .error e => .error e
    | .ok _ =>
      match data[start]? with
      | none => .error .readOutOfRange
      | some b => .ok (b, start + length)

/-- `extract_boolean_value` (lines 109-115): the value is `data[start] != 0`. -/
def extract_boolean_value (data : List Nat) (start : Nat) (length : Nat) :
    Except Err (Bool × Nat) :=
  if length ≠ 1 then .error .invalidFixedLength
  else
    match check_data_boundary data start length with
    | .error e => .error e
    | .ok _ =>
      match data[start]? with
      | none => .error .readOutOfRange
      | some b => .ok (b != 0, start + length)

/-- `extract_integer_value` (lines 121-130): big-endian accumulation
`value = value * 256 + data[i]` over 4 bytes. -/
def extract_integer_value (data : List Nat) (start : Nat) (length : Nat) :
    Except Err (Nat × Nat) :=
  if length ≠ 4 then .error .invalidFixedLength
  else
    match check_data_boundary data start length with
    | .error e => .error e
    | .ok _ =>
      match readExact data start length with
      | .error e => .error e
      | .ok bs => .ok (bs.foldl (fun acc b => acc * 256 + b) 0, start + length)

/-- `extract_bytes_value` (lines 136-141): a Python list of the raw bytes. -/
def extract_bytes_value (data : List Nat) (start : Nat) (length : Nat) :
    Except Err (List Nat × Nat) :=
  match check_data_boundary data start length with
  | .error e => .error e
  | .ok _ =>
    match readExact data start length with
    | .error e => .error e
    | .ok bs => .ok (bs, start + length)

/-- `extract_resolution_value` (lines 147-155): two 4-byte integers and a
1-byte unit, returned as the Python list `[x_res, y_res, units]`. -/
def extract_resolution_value (data : List Nat) (start : Nat) (length : Nat) :
    Except Err (List Nat × Nat) :=
  if length ≠ 9 then .error .invalidFixedLength
  else
    match check_data_boundary data start length with
    | .error e => .error e
    | .ok _ =>
      match extract_integer_value data start 4 with
      | .error e => .error e
      | .ok (x_res, s1) =>
        match extract_integer_value data s1 4 with
        | .error e => .error e
        | .ok (y_res, s2) =>
          match extract_byte_value data s2 1 with
          | .error e => .error e
          | .ok (units, s3) => .ok ([x_res, y_res, units], s3)

/-- `extract_range_value` (lines 161-168): two 4-byte integers, returned
as the Python list `[lower, upper]`. -/
def extract_range_value (data : List Nat) (start : Nat) (length : Nat) :
    Except Err (List Nat × Nat) :=
  if length ≠ 8 then .error .invalidFixedLength
  else
    match check_data_boundary data start length with
    | .error e => .error e
    | .ok _ =>
      match extract_integer_value data start 4 with
      | .error e => .error e
      | .ok (lower, s1) =>
        match extract_integer_value data s1 4 with
        | .error e => .error e
        | .ok (upper, s2) => .ok ([lower, upper], s2)

/-- The six distinct extraction functions that appear as values of the
`function_map` dictionary of `extract_value` (lines 177-197). -/
inductive ValueExtractor where
  | stringE
  | integerE
  | booleanE
  | bytesE
  | resolutionE
  | rangeE
deriving DecidableEq, Repr

/-- The `function_map` dictionary of `extract_value` (lines 177-197):
value-type name to extraction function. -/
def function_map (value_type : String) : Option ValueExtractor :=
  match value_type with
  | "no-value" => some .stringE
  | "integer" => some .integerE
  | "boolean" => some .booleanE
  | "enum" => some .integerE
  | "octetString" => some .bytesE
  | "dateTime" => some .bytesE
  | "resolution" => some .resolutionE
  | "rangeOfInteger" => some .rangeE
  | "begCollection" => some .stringE
  | "endCollection" => some .stringE
  | "textWithoutLanguage" => some .stringE
  | "nameWithoutLanguage" => some .stringE
  | "keyword" => some .stringE
  | "uri" => some .stringE
  | "uriScheme" => some .stringE
  | "charset" => some .stringE
  | "naturalLanguage" => some .stringE
  | "mimeMediaType" => some .stringE
  | "memberAttrName" => some .stringE
  | _ => none

/-- Applies the selected extraction function (the call
`function_map[value_type](data, start, length)` of line 201).  The result
is wrapped in `PyVal` to reflect Python's dynamic typing. -/
def run_extractor (k : ValueExtractor) (data : List Nat) (start : Nat)
    (length : Nat) : Except Err (PyVal × Nat) :=
  match k with
  | .stringE =>
    (extract_string_value data start length).map (fun r => (.str r.1, r.2))
  | .integerE =>
    (extract_integer_value data start length).map (fun r => (.int r.1, r.2))
  | .booleanE =>
    (extract_boolean_value data start length).map (fun r => (.bool r.1, r.2))
  | .bytesE =>
    (extract_bytes_value data start length).map
      (fun r => (.list (r.1.map (fun b => .int b)), r.2))
  | .resolutionE =>
    (extract_resolution_value data start length).map
      (fun r => (.list (r.1.map (fun n => .int n)), r.2))
  | .rangeE =>
    (extract_range_value data start length).map
      (fun r => (.list (r.1.map (fun n => .int n)), r.2))

/-- `extract_value` (lines 175-201): boundary check first, then dispatch
through `function_map` keyed by the value-type string. -/
def extract_value (data : List Nat) (value_type : String) (start : Nat)
    (length : Nat) : Except Err (PyVal × Nat) :=
  match check_data_boundary data start length with
  | .error e => .error e
  | .ok _ =>
    match function_map value_type with
    | none => .error .valueTypeUnmapped
    | some k => run_extractor k data start length

/-- `extract_length` (lines 207-210): 2-byte big-endian length field. -/
def extract_length (data : List Nat) (start : Nat) : Except Err (Nat × Nat) :=
  match check_data_boundary data start 2 with
  | .error e => .error e
  | .ok _ =>
    match data[start]?, data[start + 1]? with
    | some a, some b => .ok (256 * a + b, start + 2)
    | _, _ => .error .readOutOfRange

/-- Replaces the value at key `k` in the insertion-ordered dictionary,
keeping its position, or appends `(k, v)` if `k` is absent (Python
`d[k] = v`). -/
def setKey : List (String × List Attr) → String → List Attr →
    List (String × List Attr)
  | [], k, v => [(k, v)]
  | (k0, v0) :: rest, k, v =>
    if k0 = k then (k0, v) :: rest else (k0, v0) :: setKey rest k v

/-- Python `attributes[group]` where `group` may be `None`: a missing key
(or the `None` key, which is never inserted) raises `KeyError`. -/
def dict_get (doc : List (String × List Attr)) (group : Option String) :
    Except Err (String × List Attr) :=
  match group with
  | none => .error .keyErrorNoGroup
  | some g =>
    match doc.lookup g with
    | none => .error .keyErrorNoGroup
    | some l => .ok (g, l)

/-- The in-place list coercion and append of `extend_attribute_values`
(lines 220-224): wrap a non-list value into a one-element list, then
append the new value. -/
def extendValue (old : PyVal) (value : PyVal) : PyVal :=
  match old with
  | .list xs => .list (xs ++ [value])
  | x => .list [x, value]

/-- `add_attribute` (lines 241-246): appends a new entry to
`attributes[group]`. -/
def add_attribute (doc : List (String × List Attr)) (group : Option String)
    (value_type : String) (value_name : String) (value : PyVal) :
    Except Err (List (String × List Attr)) :=
  match dict_get doc group with
  | .error e => .error e
  | .ok (g, l) =>
    .ok (setKey doc g (l ++ [{ type := value_type, name := value_name,
                               value := value }]))

/-- `extend_attribute_values` (lines 217-224): fetches
`attributes[group][-1]` (IndexError on an empty list, Python negative
indexing otherwise selects the last entry) and extends its value. -/
def extend_attribute_values (doc : List (String × List Attr))
    (group : Option String) (value : PyVal) :
    Except Err (List (String × List Attr)) :=
  match dict_get doc group with
  | .error e => .error e
  | .ok (g, l) =>
    match l.getLast? with
    | none => .error .indexErrorEmptyGroup
    | some a =>
      .ok (setKey doc g (l.dropLast ++ [{ type := a.type, name := a.name,
                                          value := extendValue a.value value }]))

/-- The mutable state of `main`'s loop: `ipp_attributes`,
`current_attributes_group` and `prev_value_type` (lines 260-262).  The
unused local `attribute_entry` of line 276 is omitted (dead in the
source). -/
structure St where
  doc : List (String × List Attr)
  group : Option String
  prev : Option String

/-- The value-tag branch of the loop body (lines 278-297): classify the
tag, read name length, name, value length, value, then fold
(`extend_attribute_values`) if the type equals `prev_value_type` and the
name length is zero, else append (`add_attribute`); finally remember the
type.  Returns the new state and the new cursor. -/
def processEntry (data : List Nat) (i : Nat) (st : St) (ascii_val : Nat) :
    Except Err (St × Nat) :=
  match get_value_type ascii_val with
  | .error e => .error e
  | .ok cur_value_type =>
    match extract_length data (i + 1) with
    | .error e => .error e
    | .ok (name_length, c1) =>
      match extract_string_value data c1 name_length with
      | .error e => .error e
      | .ok (name, c2) =>
        match extract_length data c2 with
        | .error e => .error e
        | .ok (value_length, c3) =>
          match extract_value data cur_value_type c3 value_length with
          | .error e => .error e
          | .ok (value, c4) =>
            match
              (if st.prev == some cur_value_type && name_length == 0 then
                extend_attribute_values st.doc st.group value
              else
                add_attribute st.doc st.group cur_value_type name value) with
            | .error e => .error e
            | .ok doc2 =>
              .ok ({ doc := doc2, group := st.group,
                     prev := some cur_value_type }, c4)

/-- The `while i < len(ascii_values)` loop of `main` (lines 267-301),
as a fueled recursion.  Exhausting the stream without reaching the
terminator is the post-loop failure of lines 299-301; reading the byte
`0x03` breaks out and yields the document.  A group delimiter re-creates
`ipp_attributes[name]` as empty and sets the active group; note that
`prev_value_type` is NOT reset (faithful to the source). -/
def walkF : Nat → List Nat → Nat → St → Except Err (List (String × List Attr))
  | 0, _, _, _ => .error .outOfFuel
  | fuel + 1, data, i, st =>
    match data[i]? with
    | none => .error .unterminatedMessage
    | some ascii_val =>
      if is_ipp_delimiter ascii_val then
        if ascii_val = 3 then .ok st.doc
        else
          match get_delimiter_name ascii_val with
          | .error e => .error e
          | .ok g =>
            walkF fuel data (i + 1)
              { doc := setKey st.doc g [], group := some g, prev := st.prev }
      else
        match processEntry data i st ascii_val with
        | .error e => .error e
        | .ok (st2, j) => walkF fuel data j st2

/-- The parse performed by `main` (lines 260-301) on a byte list: run the
loop from cursor 0 with empty document, no active group and no previous
type.  `data.length + 1` fuel always suffices because the cursor strictly
increases (see `walkF_no_outOfFuel`). -/
def main_parse (data : List Nat) : Except Err (List (String × List Attr)) :=
  walkF (data.length + 1) data 0 { doc := [], group := none, prev := none }

/-- The bytes starting at position `i` encode one complete value entry:
a non-delimiter tag classified as type `t`, a name-length field `nl`, a
name `nm`, a value-length field, and a value decoding to `v`, with the
cursor left at `j`.  This packages exactly the extractions the loop body
performs on a value tag (lines 278-287). -/
def EncodesEntry (data : List Nat) (i : Nat) (t : String) (nl : Nat)
    (nm : String) (v : PyVal) (j : Nat) : Prop :=
  ∃ b c1 c2 vl c3,
    data[i]? = some b ∧ is_ipp_delimiter b = false ∧
    get_value_type b = .ok t ∧
    extract_length data (i + 1) = .ok (nl, c1) ∧
    extract_string_value data c1 nl = .ok (nm, c2) ∧
    extract_length data c2 = .ok (vl, c3) ∧
    extract_value data t c3 vl = .ok (v, j)

/-! ### Basic facts about the bounds check and raw reads -/

theorem check_data_boundary_ok_iff (data : List Nat) (s L : Nat) :
    check_data_boundary data s L = .ok () ↔ s + L ≤ data.length := by
  unfold check_data_boundary
  split
  · rename_i h
    constructor
    · intro hh; cases hh
    · intro hh; omega
  · rename_i h
    constructor
    · intro _; omega
    · intro _; rfl

theorem check_data_boundary_err (data : List Nat) (s L : Nat) (e : Err)
    (h : check_data_boundary data s L = .error e) :
    e = .outOfBounds ∧ data.length < s + L := by
  unfold check_data_boundary at h
  split at h
  · cases h; exact ⟨rfl, by omega⟩
  · cases h

theorem readExact_isOk (data : List Nat) :
    ∀ n s, s + n ≤ data.length → ∃ bs, readExact data s n = .ok bs := by
  intro n
  induction n with
  | zero => intro s _; exact ⟨[], rfl⟩
  | succ n ih =>
    intro s h
    have hs : s < data.length := by omega
    obtain ⟨bs, hbs⟩ := ih (s + 1) (by omega)
    refine ⟨data[s] :: bs, ?_⟩
    unfold readExact
    rw [List.getElem?_eq_getElem hs, hbs]

theorem readExact_err (data : List Nat) :
    ∀ n s e, readExact data s n = .error e → e = .readOutOfRange := by
  intro n
  induction n with
  | zero => intro s e h; cases h
  | succ n ih =>
    intro s e h
    unfold readExact at h
    split at h
    · cases h; rfl
    · split at h
      · cases h; exact ih (s + 1) _ ‹_›
      · cases h

theorem readExact_append (data t : List Nat) :
    ∀ n s bs, readExact data s n = .ok bs → readExact (data ++ t) s n = .ok bs := by
  intro n
  induction n with
  | zero => intro s bs h; cases h; rfl
  | succ n ih =>
    intro s bs h
    unfold readExact at h
    split at h
    · cases h
    · rename_i b hb
      split at h
      · cases h
      · rename_i bs2 hbs2
        cases h
        have hs : s < data.length := by
          by_contra hc
          rw [List.getElem?_eq_none (by omega)] at hb
          cases hb
        unfold readExact
        rw [List.getElem?_append_left hs, hb, ih _ _ hbs2]

/-! ### Shape, error, and extension lemmas for the leaf extractors -/

theorem extract_string_value_ok (data : List Nat) (s L : Nat) (v : String)
    (c : Nat) (h : extract_string_value data s L = .ok (v, c)) :
    c = s + L ∧ s + L ≤ data.length := by
  unfold extract_string_value at h
  split at h
  · cases h
  · rename_i u hcdb
    split at h
    · cases h
    · cases h
      cases u
      exact ⟨rfl, (check_data_boundary_ok_iff data s L).mp hcdb⟩

theorem extract_string_value_err (data : List Nat) (s L : Nat) (e : Err)
    (h : extract_string_value data s L = .error e) : e = .outOfBounds := by
  unfold extract_string_value at h
  split at h
  · cases h
    rename_i hcdb
    exact (check_data_boundary_err data s L _ hcdb).1
  · rename_i u hcdb
    split at h
    · cases h
      rename_i hre
      exact absurd (readExact_err data L s _ hre) (by
        cases u
        have := (check_data_boundary_ok_iff data s L).mp hcdb
        obtain ⟨bs, hbs⟩ := readExact_isOk data L s this
        intro hh
        rw [hbs] at hre
        cases hre)
    · cases h

theorem extract_string_value_isOk (data : List Nat) (s L : Nat)
    (h : s + L ≤ data.length) : ∃ r, extract_string_value data s L = .ok r := by
  obtain ⟨bs, hbs⟩ := readExact_isOk data L s h
  refine ⟨(String.mk (bs.map (fun b => Char.ofNat b)), s + L), ?_⟩
  unfold extract_string_value
  rw [(check_data_boundary_ok_iff data s L).mpr h, hbs]

theorem extract_string_value_append (data t : List Nat) (s L : Nat)
    (r : String × Nat) (h : extract_string_value data s L = .ok r) :
    extract_string_value (data ++ t) s L = .ok r := by
  unfold extract_string_value at h ⊢
  split at h
  · cases h
  · rename_i u hcdb
    split at h
    · cases h
    · rename_i bs hbs
      cases h
      cases u
      have hle := (check_data_boundary_ok_iff data s L).mp hcdb
      rw [(check_data_boundary_ok_iff (data ++ t) s L).mpr
            (by rw [List.length_append]; omega),
          readExact_append data t L s bs hbs]

theorem extract_byte_value_ok (data : List Nat) (s L v c : Nat)
    (h : extract_byte_value data s L = .ok (v, c)) :
    L = 1 ∧ c = s + L ∧ s + L ≤ data.length := by
  unfold extract_byte_value at h
  split at h
  · cases h
  · rename_i hL
    split at h
    · cases h
    · rename_i u hcdb
      split at h
      · cases h
      · cases h
        cases u
        exact ⟨by omega, rfl, (check_data_boundary_ok_iff data s L).mp hcdb⟩

theorem extract_byte_value_err (data : List Nat) (s L : Nat) (e : Err)
    (h : extract_byte_value data s L = .error e) :
    e = .invalidFixedLength ∨ e = .outOfBounds := by
  unfold extract_byte_value at h
  split at h
  · cases h; exact .inl rfl
  · rename_i hL
    split at h
    · cases h
      rename_i hcdb
      exact .inr (check_data_boundary_err data s L _ hcdb).1
    · rename_i u hcdb
      split at h
      · rename_i hnone
        cases u
        have := (check_data_boundary_ok_iff data s L).mp hcdb
        rw [List.getElem?_eq_none_iff] at hnone
        omega
      · cases h

theorem extract_byte_value_isOk (data : List Nat) (s : Nat)
    (h : s + 1 ≤ data.length) :
    extract_byte_value data s 1 = .ok (data.get ⟨s, by omega⟩, s + 1) := by
  unfold extract_byte_value
  rw [if_neg (by omega), (check_data_boundary_ok_iff data s 1).mpr h,
    List.getElem?_eq_getElem (by omega : s < data.length)]
  rfl

theorem extract_byte_value_append (data t : List Nat) (s L : Nat)
    (r : Nat × Nat) (h : extract_byte_value data s L = .ok r) :
    extract_byte_value (data ++ t) s L = .ok r := by
  unfold extract_byte_value at h ⊢
  split at h
  · cases h
  · rename_i hL
    rw [if_neg hL]
    split at h
    · cases h
    · rename_i u hcdb
      split at h
      · cases h
      · rename_i b hb
        cases h
        cases u
        have hle := (check_data_boundary_ok_iff data s L).mp hcdb
        have hs : s < data.length := by
          by_contra hc
          rw [List.getElem?_eq_none (by omega)] at hb
          cases hb
        rw [(check_data_boundary_ok_iff (data ++ t) s L).mpr
              (by rw [List.length_append]; omega),
            List.getElem?_append_left hs, hb]

theorem extract_boolean_value_ok (data : List Nat) (s L : Nat) (v : Bool)
    (c : Nat) (h : extract_boolean_value data s L = .ok (v, c)) :
    L = 1 ∧ c = s + L ∧ s + L ≤ data.length := by
  unfold extract_boolean_value at h
  split at h
  · cases h
  · rename_i hL
    split at h
    · cases h
    · rename_i u hcdb
      split at h
      · cases h
      · cases h
        cases u
        exact ⟨by omega, rfl, (check_data_boundary_ok_iff data s L).mp hcdb⟩

theorem extract_boolean_value_err (data : List Nat) (s L : Nat) (e : Err)
    (h : extract_boolean_value data s L = .error e) :
    e = .invalidFixedLength ∨ e = .outOfBounds := by
  unfold extract_boolean_value at h
  split at h
  · cases h; exact .inl rfl
  · rename_i hL
    split at h
    · cases h
      rename_i hcdb
      exact .inr (check_data_boundary_err data s L _ hcdb).1
    · rename_i u hcdb
      split at h
      · rename_i hnone
        cases u
        have := (check_data_boundary_ok_iff data s L).mp hcdb
        rw [List.getElem?_eq_none_iff] at hnone
        omega
      · cases h

theorem extract_boolean_value_append (data t : List Nat) (s L : Nat)
    (r : Bool × Nat) (h : extract_boolean_value data s L = .ok r) :
    extract_boolean_value (data ++ t) s L = .ok r := by
  unfold extract_boolean_value at h ⊢
  split at h
  · cases h
  · rename_i hL
    rw [if_neg hL]
    split at h
    · cases h
    · rename_i u hcdb
      split at h
      · cases h
      · rename_i b hb
        cases h
        cases u
        have hle := (check_data_boundary_ok_iff data s L).mp hcdb
        have hs : s < data.length := by
          by_contra hc
          rw [List.getElem?_eq_none (by omega)] at hb
          cases hb
        rw [(check_data_boundary_ok_iff (data ++ t) s L).mpr
              (by rw [List.length_append]; omega),
            List.getElem?_append_left hs, hb]

theorem extract_integer_value_ok (data : List Nat) (s L v c : Nat)
    (h : extract_integer_value data s L = .ok (v, c)) :
    L = 4 ∧ c = s + L ∧ s + L ≤ data.length := by
  unfold extract_integer_value at h
  split at h
  · cases h
  · rename_i hL
    split at h
    · cases h
    · rename_i u hcdb
      split at h
      · cases h
      · cases h
        cases u
        exact ⟨by omega, rfl, (check_data_boundary_ok_iff data s L).mp hcdb⟩

theorem extract_integer_value_err (data : List Nat) (s L : Nat) (e : Err)
    (h : extract_integer_value data s L = .error e) :
    e = .invalidFixedLength ∨ e = .outOfBounds := by
  unfold extract_integer_value at h
  split at h
  · cases h; exact .inl rfl
  · rename_i hL
    split at h
    · cases h
      rename_i hcdb
      exact .inr (check_data_boundary_err data s L _ hcdb).1
    · rename_i u hcdb
      split at h
      · rename_i hre
        cases u
        have hle := (check_data_boundary_ok_iff data s L).mp hcdb
        obtain ⟨bs, hbs⟩ := readExact_isOk data L s hle
        rw [hbs] at hre
        cases hre
      · cases h

theorem extract_integer_value_isOk (data : List Nat) (s : Nat)
    (h : s + 4 ≤ data.length) :
    ∃ r, extract_integer_value data s 4 = .ok r := by
  obtain ⟨bs, hbs⟩ := readExact_isOk data 4 s h
  refine ⟨(bs.foldl (fun acc b => acc * 256 + b) 0, s + 4), ?_⟩
  unfold extract_integer_value
  rw [if_neg (by omega), (check_data_boundary_ok_iff data s 4).mpr h, hbs]

theorem extract_integer_value_append (data t : List Nat) (s L : Nat)
    (r : Nat × Nat) (h : extract_integer_value data s L = .ok r) :
    extract_integer_value (data ++ t) s L = .ok r := by
  unfold extract_integer_value at h ⊢
  split at h
  · cases h
  · rename_i hL
    rw [if_neg hL]
    split at h
    · cases h
    · rename_i u hcdb
      split at h
      · cases h
      · rename_i bs hbs
        cases h
        cases u
        have hle := (check_data_boundary_ok_iff data s L).mp hcdb
        rw [(check_data_boundary_ok_iff (data ++ t) s L).mpr
              (by rw [List.length_append]; omega),
            readExact_append data t L s bs hbs]

theorem extract_bytes_value_ok (data : List Nat) (s L : Nat) (v : List Nat)
    (c : Nat) (h : extract_bytes_value data s L = .ok (v, c)) :
    c = s + L ∧ s + L ≤ data.length := by
  unfold extract_bytes_value at h
  split at h
  · cases h
  · rename_i u hcdb
    split at h
    · cases h
    · cases h
      cases u
      exact ⟨rfl, (check_data_boundary_ok_iff data s L).mp hcdb⟩

theorem extract_bytes_value_err (data : List Nat) (s L : Nat) (e : Err)
    (h : extract_bytes_value data s L = .error e) : e = .outOfBounds := by
  unfold extract_bytes_value at h
  split at h
  · cases h
    rename_i hcdb
    exact (check_data_boundary_err data s L _ hcdb).1
  · rename_i u hcdb
    split at h
    · rename_i hre
      cases u
      have hle := (check_data_boundary_ok_iff data s L).mp hcdb
      obtain ⟨bs, hbs⟩ := readExact_isOk data L s hle
      rw [hbs] at hre
      cases hre
    · cases h

theorem extract_bytes_value_append (data t : List Nat) (s L : Nat)
    (r : List Nat × Nat) (h : extract_bytes_value data s L = .ok r) :
    extract_bytes_value (data ++ t) s L = .ok r := by
  unfold extract_bytes_value at h ⊢
  split at h
  · cases h
  · rename_i u hcdb
    split at h
    · cases h
    · rename_i bs hbs
      cases h
      cases u
      have hle := (check_data_boundary_ok_iff data s L).mp hcdb
      rw [(check_data_boundary_ok_iff (data ++ t) s L).mpr
            (by rw [List.length_append]; omega),
          readExact_append data t L s bs hbs]

theorem extract_length_ok (data : List Nat) (s L c : Nat)
    (h : extract_length data s = .ok (L, c)) :
    c = s + 2 ∧ s + 2 ≤ data.length := by
  unfold extract_length at h
  split at h
  · cases h
  · rename_i u hcdb
    split at h
    · cases h
      cases u
      exact ⟨rfl, (check_data_boundary_ok_iff data s 2).mp hcdb⟩
    · cases h

theorem extract_length_err (data : List Nat) (s : Nat) (e : Err)
    (h : extract_length data s = .error e) :
    e = .outOfBounds ∧ data.length < s + 2 := by
  unfold extract_length at h
  split at h
  · cases h
    rename_i hcdb
    exact (check_data_boundary_err data s 2 _ hcdb)
  · rename_i u hcdb
    cases u
    have hle := (check_data_boundary_ok_iff data s 2).mp hcdb
    split at h
    · cases h
    · rename_i hcatch
      exact absurd (hcatch (data.get ⟨s, by omega⟩) (data.get ⟨s + 1, by omega⟩))
        (by
          rw [List.getElem?_eq_getElem (by omega : s < data.length),
            List.getElem?_eq_getElem (by omega : s + 1 < data.length)]
          simp)

theorem extract_length_isOk (data : List Nat) (s : Nat)
    (h : s + 2 ≤ data.length) :
    extract_length data s =
      .ok (256 * data.get ⟨s, by omega⟩ + data.get ⟨s + 1, by omega⟩, s + 2) := by
  unfold extract_length
  rw [(check_data_boundary_ok_iff data s 2).mpr h,
    List.getElem?_eq_getElem (by omega : s < data.length),
    List.getElem?_eq_getElem (by omega : s + 1 < data.length)]
  rfl

theorem extract_length_append (data t : List Nat) (s : Nat) (r : Nat × Nat)
    (h : extract_length data s = .ok r) : extract_length (data ++ t) s = .ok r := by
  obtain ⟨hc, hle⟩ := extract_length_ok data s r.1 r.2 (by
    cases r; exact h)
  have h1 : s < data.length := by omega
  have h2 : s + 1 < data.length := by omega
  unfold extract_length at h ⊢
  rw [(check_data_boundary_ok_iff data s 2).mpr (by omega)] at h
  rw [(check_data_boundary_ok_iff (data ++ t) s 2).mpr
        (by rw [List.length_append]; omega),
      List.getElem?_append_left h1, List.getElem?_append_left h2]
  rw [List.getElem?_eq_getElem h1, List.getElem?_eq_getElem h2] at h ⊢
  exact h


/-! ### Lemmas for the composite extractors -/

theorem extract_resolution_value_ok (data : List Nat) (s L : Nat)
    (v : List Nat) (c : Nat)
    (h : extract_resolution_value data s L = .ok (v, c)) :
    L = 9 ∧ c = s + L ∧ s + L ≤ data.length := by
  unfold extract_resolution_value at h
  by_cases hL : L = 9
  case neg => rw [if_pos (by omega)] at h; cases h
  subst hL
  rw [if_neg (by omega)] at h
  cases hcdb : check_data_boundary data s 9 with
  | error e => simp only [hcdb] at h; cases h
  | ok u =>
    cases u
    simp only [hcdb] at h
    have hle := (check_data_boundary_ok_iff data s 9).mp hcdb
    cases h1 : extract_integer_value data s 4 with
    | error e1 => simp only [h1] at h; cases h
    | ok r1 =>
      obtain ⟨x1, c1⟩ := r1
      simp only [h1] at h
      obtain ⟨-, hc1, -⟩ := extract_integer_value_ok data s 4 x1 c1 h1
      cases h2 : extract_integer_value data c1 4 with
      | error e2 => simp only [h2] at h; cases h
      | ok r2 =>
        obtain ⟨x2, c2⟩ := r2
        simp only [h2] at h
        obtain ⟨-, hc2, -⟩ := extract_integer_value_ok data c1 4 x2 c2 h2
        cases h3 : extract_byte_value data c2 1 with
        | error e3 => simp only [h3] at h; cases h
        | ok r3 =>
          obtain ⟨x3, c3⟩ := r3
          simp only [h3] at h
          obtain ⟨-, hc3, -⟩ := extract_byte_value_ok data c2 1 x3 c3 h3
          cases h
          exact ⟨rfl, by omega, hle⟩

theorem extract_resolution_value_err (data : List Nat) (s L : Nat) (e : Err)
    (h : extract_resolution_value data s L = .error e) :
    e = .invalidFixedLength ∨ e = .outOfBounds := by
  unfold extract_resolution_value at h
  by_cases hL : L = 9
  case neg => rw [if_pos (by omega)] at h; cases h; exact .inl rfl
  subst hL
  rw [if_neg (by omega)] at h
  cases hcdb : check_data_boundary data s 9 with
  | error e2 =>
    simp only [hcdb] at h
    cases h
    exact .inr (check_data_boundary_err data s 9 _ hcdb).1
  | ok u =>
    cases u
    simp only [hcdb] at h
    have hle := (check_data_boundary_ok_iff data s 9).mp hcdb
    obtain ⟨⟨x1, c1⟩, h1⟩ := extract_integer_value_isOk data s (by omega)
    simp only [h1] at h
    obtain ⟨-, hc1, -⟩ := extract_integer_value_ok data s 4 x1 c1 h1
    obtain ⟨⟨x2, c2⟩, h2⟩ := extract_integer_value_isOk data c1 (by omega)
    simp only [h2] at h
    obtain ⟨-, hc2, -⟩ := extract_integer_value_ok data c1 4 x2 c2 h2
    rw [extract_byte_value_isOk data c2 (by omega)] at h
    cases h

theorem extract_resolution_value_append (data t : List Nat) (s L : Nat)
    (r : List Nat × Nat) (h : extract_resolution_value data s L = .ok r) :
    extract_resolution_value (data ++ t) s L = .ok r := by
  unfold extract_resolution_value at h ⊢
  by_cases hL : L = 9
  case neg => rw [if_pos (by omega)] at h; cases h
  subst hL
  rw [if_neg (by omega)] at h ⊢
  cases hcdb : check_data_boundary data s 9 with
  | error e => simp only [hcdb] at h; cases h
  | ok u =>
    cases u
    simp only [hcdb] at h
    have hle := (check_data_boundary_ok_iff data s 9).mp hcdb
    rw [(check_data_boundary_ok_iff (data ++ t) s 9).mpr
          (by rw [List.length_append]; omega)]
    cases h1 : extract_integer_value data s 4 with
    | error e1 => simp only [h1] at h; cases h
    | ok r1 =>
      obtain ⟨x1, c1⟩ := r1
      simp only [h1] at h
      simp only [extract_integer_value_append data t s 4 (x1, c1) h1]
      cases h2 : extract_integer_value data c1 4 with
      | error e2 => simp only [h2] at h; cases h
      | ok r2 =>
        obtain ⟨x2, c2⟩ := r2
        simp only [h2] at h
        simp only [extract_integer_value_append data t c1 4 (x2, c2) h2]
        cases h3 : extract_byte_value data c2 1 with
        | error e3 => simp only [h3] at h; cases h
        | ok r3 =>
          obtain ⟨x3, c3⟩ := r3
          simp only [h3] at h
          simp only [extract_byte_value_append data t c2 1 (x3, c3) h3]
          exact h

theorem extract_range_value_ok (data : List Nat) (s L : Nat)
    (v : List Nat) (c : Nat) (h : extract_range_value data s L = .ok (v, c)) :
    L = 8 ∧ c = s + L ∧ s + L ≤ data.length := by
  unfold extract_range_value at h
  by_cases hL : L = 8
  case neg => rw [if_pos (by omega)] at h; cases h
  subst hL
  rw [if_neg (by omega)] at h
  cases hcdb : check_data_boundary data s 8 with
  | error e => simp only [hcdb] at h; cases h
  | ok u =>
    cases u
    simp only [hcdb] at h
    have hle := (check_data_boundary_ok_iff data s 8).mp hcdb
    cases h1 : extract_integer_value data s 4 with
    | error e1 => simp only [h1] at h; cases h
    | ok r1 =>
      obtain ⟨x1, c1⟩ := r1
      simp only [h1] at h
      obtain ⟨-, hc1, -⟩ := extract_integer_value_ok data s 4 x1 c1 h1
      cases h2 : extract_integer_value data c1 4 with
      | error e2 => simp only [h2] at h; cases h
      | ok r2 =>
        obtain ⟨x2, c2⟩ := r2
        simp only [h2] at h
        obtain ⟨-, hc2, -⟩ := extract_integer_value_ok data c1 4 x2 c2 h2
        cases h
        exact ⟨rfl, by omega, hle⟩

theorem extract_range_value_err (data : List Nat) (s L : Nat) (e : Err)
    (h : extract_range_value data s L = .error e) :
    e = .invalidFixedLength ∨ e = .outOfBounds := by
  unfold extract_range_value at h
  by_cases hL : L = 8
  case neg => rw [if_pos (by omega)] at h; cases h; exact .inl rfl
  subst hL
  rw [if_neg (by omega)] at h
  cases hcdb : check_data_boundary data s 8 with
  | error e2 =>
    simp only [hcdb] at h
    cases h
    exact .inr (check_data_boundary_err data s 8 _ hcdb).1
  | ok u =>
    cases u
    simp only [hcdb] at h
    have hle := (check_data_boundary_ok_iff data s 8).mp hcdb
    obtain ⟨⟨x1, c1⟩, h1⟩ := extract_integer_value_isOk data s (by omega)
    simp only [h1] at h
    obtain ⟨-, hc1, -⟩ := extract_integer_value_ok data s 4 x1 c1 h1
    obtain ⟨⟨x2, c2⟩, h2⟩ := extract_integer_value_isOk data c1 (by omega)
    simp only [h2] at h
    cases h

theorem extract_range_value_append (data t : List Nat) (s L : Nat)
    (r : List Nat × Nat) (h : extract_range_value data s L = .ok r) :
    extract_range_value (data ++ t) s L = .ok r := by
  unfold extract_range_value at h ⊢
  by_cases hL : L = 8
  case neg => rw [if_pos (by omega)] at h; cases h
  subst hL
  rw [if_neg (by omega)] at h ⊢
  cases hcdb : check_data_boundary data s 8 with
  | error e => simp only [hcdb] at h; cases h
  | ok u =>
    cases u
    simp only [hcdb] at h
    have hle := (check_data_boundary_ok_iff data s 8).mp hcdb
    rw [(check_data_boundary_ok_iff (data ++ t) s 8).mpr
          (by rw [List.length_append]; omega)]
    cases h1 : extract_integer_value data s 4 with
    | error e1 => simp only [h1] at h; cases h
    | ok r1 =>
      obtain ⟨x1, c1⟩ := r1
      simp only [h1] at h
      simp only [extract_integer_value_append data t s 4 (x1, c1) h1]
      cases h2 : extract_integer_value data c1 4 with
      | error e2 => simp only [h2] at h; cases h
      | ok r2 =>
        obtain ⟨x2, c2⟩ := r2
        simp only [h2] at h
        simp only [extract_integer_value_append data t c1 4 (x2, c2) h2]
        exact h

theorem except_map_ok {α β : Type} (f : α → β) (x : Except Err α) (y : β)
    (h : x.map f = .ok y) : ∃ r, x = .ok r ∧ y = f r := by
  cases x with
  | error e => cases h
  | ok r =>
    refine ⟨r, rfl, ?_⟩
    cases h
    rfl

theorem except_map_err {α β : Type} (f : α → β) (x : Except Err α) (e : Err)
    (h : x.map f = .error e) : x = .error e := by
  cases x with
  | error e2 =>
    cases h
    rfl
  | ok r => cases h

theorem run_extractor_ok (k : ValueExtractor) (data : List Nat) (s L : Nat)
    (v : PyVal) (c : Nat) (h : run_extractor k data s L = .ok (v, c)) :
    c = s + L ∧ s + L ≤ data.length := by
  cases k with
  | stringE =>
    obtain ⟨⟨x, c0⟩, hx, hy⟩ := except_map_ok _ _ _ h
    obtain ⟨hc0, hb⟩ := extract_string_value_ok data s L x c0 hx
    simp only [Prod.mk.injEq] at hy
    obtain ⟨hv, hc⟩ := hy
    exact ⟨by omega, hb⟩
  | integerE =>
    obtain ⟨⟨x, c0⟩, hx, hy⟩ := except_map_ok _ _ _ h
    obtain ⟨-, hc0, hb⟩ := extract_integer_value_ok data s L x c0 hx
    simp only [Prod.mk.injEq] at hy
    obtain ⟨hv, hc⟩ := hy
    exact ⟨by omega, hb⟩
  | booleanE =>
    obtain ⟨⟨x, c0⟩, hx, hy⟩ := except_map_ok _ _ _ h
    obtain ⟨-, hc0, hb⟩ := extract_boolean_value_ok data s L x c0 hx
    simp only [Prod.mk.injEq] at hy
    obtain ⟨hv, hc⟩ := hy
    exact ⟨by omega, hb⟩
  | bytesE =>
    obtain ⟨⟨x, c0⟩, hx, hy⟩ := except_map_ok _ _ _ h
    obtain ⟨hc0, hb⟩ := extract_bytes_value_ok data s L x c0 hx
    simp only [Prod.mk.injEq] at hy
    obtain ⟨hv, hc⟩ := hy
    exact ⟨by omega, hb⟩
  | resolutionE =>
    obtain ⟨⟨x, c0⟩, hx, hy⟩ := except_map_ok _ _ _ h
    obtain ⟨-, hc0, hb⟩ := extract_resolution_value_ok data s L x c0 hx
    simp only [Prod.mk.injEq] at hy
    obtain ⟨hv, hc⟩ := hy
    exact ⟨by omega, hb⟩
  | rangeE =>
    obtain ⟨⟨x, c0⟩, hx, hy⟩ := except_map_ok _ _ _ h
    obtain ⟨-, hc0, hb⟩ := extract_range_value_ok data s L x c0 hx
    simp only [Prod.mk.injEq] at hy
    obtain ⟨hv, hc⟩ := hy
    exact ⟨by omega, hb⟩

theorem run_extractor_err (k : ValueExtractor) (data : List Nat) (s L : Nat)
    (e : Err) (h : run_extractor k data s L = .error e) :
    e = .outOfBounds ∨ e = .invalidFixedLength := by
  cases k with
  | stringE => exact .inl (extract_string_value_err data s L e
      (except_map_err _ _ _ h))
  | integerE =>
    rcases extract_integer_value_err data s L e (except_map_err _ _ _ h) with
      hh | hh
    · exact .inr hh
    · exact .inl hh
  | booleanE =>
    rcases extract_boolean_value_err data s L e (except_map_err _ _ _ h) with
      hh | hh
    · exact .inr hh
    · exact .inl hh
  | bytesE => exact .inl (extract_bytes_value_err data s L e
      (except_map_err _ _ _ h))
  | resolutionE =>
    rcases extract_resolution_value_err data s L e (except_map_err _ _ _ h) with
      hh | hh
    · exact .inr hh
    · exact .inl hh
  | rangeE =>
    rcases extract_range_value_err data s L e (except_map_err _ _ _ h) with
      hh | hh
    · exact .inr hh
    · exact .inl hh

theorem run_extractor_append (k : ValueExtractor) (data t : List Nat)
    (s L : Nat) (r : PyVal × Nat) (h : run_extractor k data s L = .ok r) :
    run_extractor k (data ++ t) s L = .ok r := by
  cases k with
  | stringE =>
    obtain ⟨x, hx, hy⟩ := except_map_ok _ _ _ h
    subst hy
    unfold run_extractor
    rw [extract_string_value_append data t s L x hx]
    rfl
  | integerE =>
    obtain ⟨x, hx, hy⟩ := except_map_ok _ _ _ h
    subst hy
    unfold run_extractor
    rw [extract_integer_value_append data t s L x hx]
    rfl
  | booleanE =>
    obtain ⟨x, hx, hy⟩ := except_map_ok _ _ _ h
    subst hy
    unfold run_extractor
    rw [extract_boolean_value_append data t s L x hx]
    rfl
  | bytesE =>
    obtain ⟨x, hx, hy⟩ := except_map_ok _ _ _ h
    subst hy
    unfold run_extractor
    rw [extract_bytes_value_append data t s L x hx]
    rfl
  | resolutionE =>
    obtain ⟨x, hx, hy⟩ := except_map_ok _ _ _ h
    subst hy
    unfold run_extractor
    rw [extract_resolution_value_append data t s L x hx]
    rfl
  | rangeE =>
    obtain ⟨x, hx, hy⟩ := except_map_ok _ _ _ h
    subst hy
    unfold run_extractor
    rw [extract_range_value_append data t s L x hx]
    rfl

theorem extract_value_ok (data : List Nat) (vt : String) (s L : Nat)
    (v : PyVal) (c : Nat) (h : extract_value data vt s L = .ok (v, c)) :
    c = s + L ∧ s + L ≤ data.length := by
  unfold extract_value at h
  cases hcdb : check_data_boundary data s L with
  | error e => simp only [hcdb] at h; cases h
  | ok u =>
    cases u
    simp only [hcdb] at h
    cases hfm : function_map vt with
    | none => simp only [hfm] at h; cases h
    | some k =>
      simp only [hfm] at h
      exact run_extractor_ok k data s L v c h

theorem extract_value_err (data : List Nat) (vt : String) (s L : Nat)
    (e : Err) (h : extract_value data vt s L = .error e) :
    e = .outOfBounds ∨ e = .invalidFixedLength ∨ e = .valueTypeUnmapped := by
  unfold extract_value at h
  cases hcdb : check_data_boundary data s L with
  | error e2 =>
    simp only [hcdb] at h
    cases h
    exact .inl (check_data_boundary_err data s L _ hcdb).1
  | ok u =>
    cases u
    simp only [hcdb] at h
    cases hfm : function_map vt with
    | none =>
      simp only [hfm] at h
      cases h
      exact .inr (.inr rfl)
    | some k =>
      simp only [hfm] at h
      rcases run_extractor_err k data s L e h with hh | hh
      · exact .inl hh
      · exact .inr (.inl hh)

theorem extract_value_append (data t : List Nat) (vt : String) (s L : Nat)
    (r : PyVal × Nat) (h : extract_value data vt s L = .ok r) :
    extract_value (data ++ t) vt s L = .ok r := by
  unfold extract_value at h ⊢
  cases hcdb : check_data_boundary data s L with
  | error e => simp only [hcdb] at h; cases h
  | ok u =>
    cases u
    simp only [hcdb] at h
    have hle := (check_data_boundary_ok_iff data s L).mp hcdb
    rw [(check_data_boundary_ok_iff (data ++ t) s L).mpr
          (by rw [List.length_append]; omega)]
    cases hfm : function_map vt with
    | none => simp only [hfm] at h; cases h
    | some k =>
      simp only [hfm] at h
      exact run_extractor_append k data t s L r h
/-! ### Tag classifier lemmas -/

theorem get_value_type_err (b : Nat) (e : Err)
    (h : get_value_type b = .error e) : e = .unsupportedValueTag := by
  unfold get_value_type at h
  split at h <;> cases h
  rfl

theorem is_ipp_delimiter_cases (b : Nat) (h : is_ipp_delimiter b = true) :
    b = 1 ∨ b = 2 ∨ b = 3 ∨ b = 4 := by
  unfold is_ipp_delimiter at h
  simp at h
  tauto

theorem get_delimiter_name_group (b : Nat) (h : b = 1 ∨ b = 2 ∨ b = 4) :
    ∃ g, get_delimiter_name b = .ok g ∧ g ≠ "endOfAttributes" := by
  rcases h with h | h | h <;> subst h
  · exact ⟨"operationAttributes", rfl, by decide⟩
  · exact ⟨"jobAttributes", rfl, by decide⟩
  · exact ⟨"printerAttributes", rfl, by decide⟩

/-! ### Dictionary and assembler lemmas -/

theorem lookup_setKey_self (doc : List (String × List Attr)) (k : String)
    (v : List Attr) : List.lookup k (setKey doc k v) = some v := by
  induction doc with
  | nil => simp [setKey, List.lookup]
  | cons hd tl ih =>
    obtain ⟨k0, v0⟩ := hd
    by_cases hk : k0 = k
    · subst hk
      simp [setKey, List.lookup]
    · have hk2 : (k == k0) = false :=
        beq_eq_false_iff_ne.mpr (fun hh => hk hh.symm)
      simp [setKey, hk, List.lookup, hk2, ih]

theorem setKey_fst_mem (doc : List (String × List Attr)) (k : String)
    (v : List Attr) (a : String)
    (h : a ∈ (setKey doc k v).map Prod.fst) :
    a ∈ doc.map Prod.fst ∨ a = k := by
  induction doc with
  | nil =>
    unfold setKey at h
    exact .inr (List.mem_singleton.mp h)
  | cons hd tl ih =>
    obtain ⟨k0, v0⟩ := hd
    unfold setKey at h
    by_cases hk : k0 = k
    · rw [if_pos hk, List.map_cons] at h
      exact .inl h
    · rw [if_neg hk, List.map_cons] at h
      rcases List.mem_cons.mp h with h | h
      · exact .inl (by rw [List.map_cons]; exact List.mem_cons.mpr (.inl h))
      · rcases ih h with hh | hh
        · exact .inl (by rw [List.map_cons]; exact List.mem_cons.mpr (.inr hh))
        · exact .inr hh

theorem lookup_some_mem_fst (doc : List (String × List Attr)) (k : String)
    (v : List Attr) (h : List.lookup k doc = some v) :
    k ∈ doc.map Prod.fst := by
  induction doc with
  | nil => cases h
  | cons hd tl ih =>
    obtain ⟨k0, v0⟩ := hd
    rw [List.map_cons]
    by_cases hk : k = k0
    · exact List.mem_cons.mpr (.inl hk)
    · unfold List.lookup at h
      rw [beq_eq_false_iff_ne.mpr hk] at h
      exact List.mem_cons.mpr (.inr (ih h))

theorem add_attribute_eval (doc : List (String × List Attr)) (g : String)
    (l : List Attr) (vt nm : String) (v : PyVal)
    (hlk : List.lookup g doc = some l) :
    add_attribute doc (some g) vt nm v =
      .ok (setKey doc g (l ++ [{ type := vt, name := nm, value := v }])) := by
  unfold add_attribute dict_get
  simp only [hlk]

theorem add_attribute_err (doc : List (String × List Attr))
    (group : Option String) (vt nm : String) (v : PyVal) (e : Err)
    (h : add_attribute doc group vt nm v = .error e) : e = .keyErrorNoGroup := by
  unfold add_attribute dict_get at h
  cases group with
  | none => cases h; rfl
  | some g =>
    cases hlk : List.lookup g doc with
    | none => simp only [hlk] at h; cases h; rfl
    | some l => simp only [hlk] at h; cases h

theorem add_attribute_keys (doc doc2 : List (String × List Attr))
    (group : Option String) (vt nm : String) (v : PyVal)
    (h : add_attribute doc group vt nm v = .ok doc2) (a : String)
    (ha : a ∈ doc2.map Prod.fst) : a ∈ doc.map Prod.fst := by
  unfold add_attribute dict_get at h
  cases group with
  | none => cases h
  | some g =>
    cases hlk : List.lookup g doc with
    | none => simp only [hlk] at h; cases h
    | some l =>
      simp only [hlk] at h
      cases h
      rcases setKey_fst_mem doc g _ a ha with hh | hh
      · exact hh
      · subst hh
        exact lookup_some_mem_fst doc a l hlk

theorem extend_attribute_values_eval (doc : List (String × List Attr))
    (g : String) (l : List Attr) (a : Attr) (v : PyVal)
    (hlk : List.lookup g doc = some (l ++ [a])) :
    extend_attribute_values doc (some g) v =
      .ok (setKey doc g (l ++ [{ type := a.type, name := a.name,
                                 value := extendValue a.value v }])) := by
  unfold extend_attribute_values dict_get
  simp only [hlk, List.getLast?_concat, List.dropLast_concat]

theorem extend_attribute_values_empty (doc : List (String × List Attr))
    (g : String) (v : PyVal) (hlk : List.lookup g doc = some []) :
    extend_attribute_values doc (some g) v = .error .indexErrorEmptyGroup := by
  unfold extend_attribute_values dict_get
  simp only [hlk]
  rfl

theorem extend_attribute_values_err (doc : List (String × List Attr))
    (group : Option String) (v : PyVal) (e : Err)
    (h : extend_attribute_values doc group v = .error e) :
    e = .keyErrorNoGroup ∨ e = .indexErrorEmptyGroup := by
  unfold extend_attribute_values dict_get at h
  cases group with
  | none => cases h; exact .inl rfl
  | some g =>
    cases hlk : List.lookup g doc with
    | none => simp only [hlk] at h; cases h; exact .inl rfl
    | some l =>
      simp only [hlk] at h
      cases hlast : l.getLast? with
      | none => simp only [hlast] at h; cases h; exact .inr rfl
      | some a => simp only [hlast] at h; cases h

theorem extend_attribute_values_keys (doc doc2 : List (String × List Attr))
    (group : Option String) (v : PyVal)
    (h : extend_attribute_values doc group v = .ok doc2) (a : String)
    (ha : a ∈ doc2.map Prod.fst) : a ∈ doc.map Prod.fst := by
  unfold extend_attribute_values dict_get at h
  cases group with
  | none => cases h
  | some g =>
    cases hlk : List.lookup g doc with
    | none => simp only [hlk] at h; cases h
    | some l =>
      simp only [hlk] at h
      cases hlast : l.getLast? with
      | none => simp only [hlast] at h; cases h
      | some a0 =>
        simp only [hlast] at h
        cases h
        rcases setKey_fst_mem doc g _ a ha with hh | hh
        · exact hh
        · subst hh
          exact lookup_some_mem_fst doc a l hlk

/-! ### Lemmas about the value-entry branch of the loop body -/

theorem add_attribute_none (doc : List (String × List Attr)) (vt nm : String)
    (v : PyVal) : add_attribute doc none vt nm v = .error .keyErrorNoGroup := rfl

theorem processEntry_ok (data : List Nat) (i : Nat) (st : St) (b : Nat)
    (st2 : St) (j : Nat) (h : processEntry data i st b = .ok (st2, j)) :
    i < j ∧ j ≤ data.length ∧ st2.group = st.group := by
  unfold processEntry at h
  cases ht : get_value_type b with
  | error e => simp only [ht] at h; cases h
  | ok t =>
    simp only [ht] at h
    cases hn : extract_length data (i + 1) with
    | error e => simp only [hn] at h; cases h
    | ok rn =>
      obtain ⟨nl, c1⟩ := rn
      simp only [hn] at h
      obtain ⟨hc1, hb1⟩ := extract_length_ok data (i + 1) nl c1 hn
      cases hs : extract_string_value data c1 nl with
      | error e => simp only [hs] at h; cases h
      | ok rs =>
        obtain ⟨nm, c2⟩ := rs
        simp only [hs] at h
        obtain ⟨hc2, hb2⟩ := extract_string_value_ok data c1 nl nm c2 hs
        cases hl : extract_length data c2 with
        | error e => simp only [hl] at h; cases h
        | ok rl =>
          obtain ⟨vl, c3⟩ := rl
          simp only [hl] at h
          obtain ⟨hc3, hb3⟩ := extract_length_ok data c2 vl c3 hl
          cases hv : extract_value data t c3 vl with
          | error e => simp only [hv] at h; cases h
          | ok rv =>
            obtain ⟨v, c4⟩ := rv
            simp only [hv] at h
            obtain ⟨hc4, hb4⟩ := extract_value_ok data t c3 vl v c4 hv
            cases hd : (if st.prev == some t && nl == 0 then
                extend_attribute_values st.doc st.group v
              else add_attribute st.doc st.group t nm v) with
            | error e => simp only [hd] at h; cases h
            | ok doc2 =>
              simp only [hd] at h
              cases h
              exact ⟨by omega, by omega, rfl⟩

theorem processEntry_err (data : List Nat) (i : Nat) (st : St) (b : Nat)
    (e : Err) (h : processEntry data i st b = .error e) :
    e = .unsupportedValueTag ∨ e = .outOfBounds ∨ e = .invalidFixedLength ∨
      e = .valueTypeUnmapped ∨ e = .keyErrorNoGroup ∨
      e = .indexErrorEmptyGroup := by
  unfold processEntry at h
  cases ht : get_value_type b with
  | error e2 =>
    simp only [ht] at h
    cases h
    exact .inl (get_value_type_err b _ ht)
  | ok t =>
    simp only [ht] at h
    cases hn : extract_length data (i + 1) with
    | error e2 =>
      simp only [hn] at h
      cases h
      exact .inr (.inl (extract_length_err data (i + 1) _ hn).1)
    | ok rn =>
      obtain ⟨nl, c1⟩ := rn
      simp only [hn] at h
      cases hs : extract_string_value data c1 nl with
      | error e2 =>
        simp only [hs] at h
        cases h
        exact .inr (.inl (extract_string_value_err data c1 nl _ hs))
      | ok rs =>
        obtain ⟨nm, c2⟩ := rs
        simp only [hs] at h
        cases hl : extract_length data c2 with
        | error e2 =>
          simp only [hl] at h
          cases h
          exact .inr (.inl (extract_length_err data c2 _ hl).1)
        | ok rl =>
          obtain ⟨vl, c3⟩ := rl
          simp only [hl] at h
          cases hv : extract_value data t c3 vl with
          | error e2 =>
            simp only [hv] at h
            cases h
            rcases extract_value_err data t c3 vl _ hv with hh | hh | hh
            · exact .inr (.inl hh)
            · exact .inr (.inr (.inl hh))
            · exact .inr (.inr (.inr (.inl hh)))
          | ok rv =>
            obtain ⟨v, c4⟩ := rv
            simp only [hv] at h
            cases hd : (if st.prev == some t && nl == 0 then
                extend_attribute_values st.doc st.group v
              else add_attribute st.doc st.group t nm v) with
            | error e2 =>
              simp only [hd] at h
              cases h
              split at hd
              · rcases extend_attribute_values_err st.doc st.group v _ hd with
                  hh | hh
                · exact .inr (.inr (.inr (.inr (.inl hh))))
                · exact .inr (.inr (.inr (.inr (.inr hh))))
              · exact .inr (.inr (.inr (.inr (.inl
                  (add_attribute_err st.doc st.group t nm v _ hd)))))
            | ok doc2 =>
              simp only [hd] at h
              cases h

theorem processEntry_none_not_ok (data : List Nat) (i : Nat) (st : St)
    (b : Nat) (hg : st.group = none) (hp : st.prev = none)
    (r : St × Nat) : processEntry data i st b ≠ .ok r := by
  intro h
  unfold processEntry at h
  cases ht : get_value_type b with
  | error e => simp only [ht] at h; cases h
  | ok t =>
    simp only [ht] at h
    cases hn : extract_length data (i + 1) with
    | error e => simp only [hn] at h; cases h
    | ok rn =>
      obtain ⟨nl, c1⟩ := rn
      simp only [hn] at h
      cases hs : extract_string_value data c1 nl with
      | error e => simp only [hs] at h; cases h
      | ok rs =>
        obtain ⟨nm, c2⟩ := rs
        simp only [hs] at h
        cases hl : extract_length data c2 with
        | error e => simp only [hl] at h; cases h
        | ok rl =>
          obtain ⟨vl, c3⟩ := rl
          simp only [hl] at h
          cases hv : extract_value data t c3 vl with
          | error e => simp only [hv] at h; cases h
          | ok rv =>
            obtain ⟨v, c4⟩ := rv
            simp only [hv] at h
            rw [hp, hg] at h
            simp only [Bool.false_and, Bool.false_eq_true, if_false,
              add_attribute_none] at h
            cases h

theorem processEntry_append (data t : List Nat) (i : Nat) (st : St) (b : Nat)
    (r : St × Nat) (h : processEntry data i st b = .ok r) :
    processEntry (data ++ t) i st b = .ok r := by
  unfold processEntry at h ⊢
  cases ht : get_value_type b with
  | error e => simp only [ht] at h; cases h
  | ok ty =>
    simp only [ht] at h ⊢
    cases hn : extract_length data (i + 1) with
    | error e => simp only [hn] at h; cases h
    | ok rn =>
      obtain ⟨nl, c1⟩ := rn
      simp only [hn] at h
      simp only [extract_length_append data t (i + 1) (nl, c1) hn]
      cases hs : extract_string_value data c1 nl with
      | error e => simp only [hs] at h; cases h
      | ok rs =>
        obtain ⟨nm, c2⟩ := rs
        simp only [hs] at h
        simp only [extract_string_value_append data t c1 nl (nm, c2) hs]
        cases hl : extract_length data c2 with
        | error e => simp only [hl] at h; cases h
        | ok rl =>
          obtain ⟨vl, c3⟩ := rl
          simp only [hl] at h
          simp only [extract_length_append data t c2 (vl, c3) hl]
          cases hv : extract_value data ty c3 vl with
          | error e => simp only [hv] at h; cases h
          | ok rv =>
            obtain ⟨v, c4⟩ := rv
            simp only [hv] at h
            simp only [extract_value_append data t ty c3 vl (v, c4) hv]
            exact h

theorem processEntry_eval_add (data : List Nat) (i : Nat) (st : St) (b : Nat)
    (t nm : String) (nl c1 c2 vl c3 c4 : Nat) (v : PyVal)
    (doc2 : List (String × List Attr))
    (ht : get_value_type b = .ok t)
    (hn : extract_length data (i + 1) = .ok (nl, c1))
    (hs : extract_string_value data c1 nl = .ok (nm, c2))
    (hl : extract_length data c2 = .ok (vl, c3))
    (hv : extract_value data t c3 vl = .ok (v, c4))
    (hcond : (st.prev == some t && nl == 0) = false)
    (hadd : add_attribute st.doc st.group t nm v = .ok doc2) :
    processEntry data i st b =
      .ok ({ doc := doc2, group := st.group, prev := some t }, c4) := by
  unfold processEntry
  simp only [ht, hn, hs, hl, hv, hcond, Bool.false_eq_true, if_false, hadd]

theorem processEntry_eval_extend (data : List Nat) (i : Nat) (st : St)
    (b : Nat) (t nm : String) (nl c1 c2 vl c3 c4 : Nat) (v : PyVal)
    (doc2 : List (String × List Attr))
    (ht : get_value_type b = .ok t)
    (hn : extract_length data (i + 1) = .ok (nl, c1))
    (hs : extract_string_value data c1 nl = .ok (nm, c2))
    (hl : extract_length data c2 = .ok (vl, c3))
    (hv : extract_value data t c3 vl = .ok (v, c4))
    (hcond : (st.prev == some t && nl == 0) = true)
    (hext : extend_attribute_values st.doc st.group v = .ok doc2) :
    processEntry data i st b =
      .ok ({ doc := doc2, group := st.group, prev := some t }, c4) := by
  unfold processEntry
  simp only [ht, hn, hs, hl, hv, hcond, if_true, hext]

theorem processEntry_eval_err (data : List Nat) (i : Nat) (st : St)
    (b : Nat) (t nm : String) (nl c1 c2 vl c3 c4 : Nat) (v : PyVal) (e : Err)
    (ht : get_value_type b = .ok t)
    (hn : extract_length data (i + 1) = .ok (nl, c1))
    (hs : extract_string_value data c1 nl = .ok (nm, c2))
    (hl : extract_length data c2 = .ok (vl, c3))
    (hv : extract_value data t c3 vl = .ok (v, c4))
    (hcond : (st.prev == some t && nl == 0) = false)
    (hadd : add_attribute st.doc st.group t nm v = .error e) :
    processEntry data i st b = .error e := by
  unfold processEntry
  simp only [ht, hn, hs, hl, hv, hcond, Bool.false_eq_true, if_false, hadd]

theorem processEntry_keys (data : List Nat) (i : Nat) (st : St) (b : Nat)
    (st2 : St) (j : Nat) (h : processEntry data i st b = .ok (st2, j))
    (a : String) (ha : a ∈ st2.doc.map Prod.fst) :
    a ∈ st.doc.map Prod.fst := by
  unfold processEntry at h
  cases ht : get_value_type b with
  | error e => simp only [ht] at h; cases h
  | ok t =>
    simp only [ht] at h
    cases hn : extract_length data (i + 1) with
    | error e => simp only [hn] at h; cases h
    | ok rn =>
      obtain ⟨nl, c1⟩ := rn
      simp only [hn] at h
      cases hs : extract_string_value data c1 nl with
      | error e => simp only [hs] at h; cases h
      | ok rs =>
        obtain ⟨nm, c2⟩ := rs
        simp only [hs] at h
        cases hl : extract_length data c2 with
        | error e => simp only [hl] at h; cases h
        | ok rl =>
          obtain ⟨vl, c3⟩ := rl
          simp only [hl] at h
          cases hv : extract_value data t c3 vl with
          | error e => simp only [hv] at h; cases h
          | ok rv =>
            obtain ⟨v, c4⟩ := rv
            simp only [hv] at h
            cases hd : (if st.prev == some t && nl == 0 then
                extend_attribute_values st.doc st.group v
              else add_attribute st.doc st.group t nm v) with
            | error e => simp only [hd] at h; cases h
            | ok doc2 =>
              simp only [hd] at h
              cases h
              split at hd
              · exact extend_attribute_values_keys st.doc doc2 st.group v hd a ha
              · exact add_attribute_keys st.doc doc2 st.group t nm v hd a ha

/-! ### Step lemmas for the walker -/

theorem walkF_zero (data : List Nat) (i : Nat) (st : St) :
    walkF 0 data i st = .error .outOfFuel := rfl

theorem walkF_exhaust (f : Nat) (data : List Nat) (i : Nat) (st : St)
    (h : data.length ≤ i) :
    walkF (f + 1) data i st = .error .unterminatedMessage := by
  unfold walkF
  rw [List.getElem?_eq_none h]

theorem walkF_term (f : Nat) (data : List Nat) (i : Nat) (st : St)
    (h : data[i]? = some 3) : walkF (f + 1) data i st = .ok st.doc := by
  unfold walkF
  simp only [h]
  rfl

theorem walkF_delim (f : Nat) (data : List Nat) (i : Nat) (st : St) (b : Nat)
    (g : String) (hb : data[i]? = some b) (hd : is_ipp_delimiter b = true)
    (h3 : ¬ b = 3) (hgd : get_delimiter_name b = .ok g) :
    walkF (f + 1) data i st =
      walkF f data (i + 1)
        { doc := setKey st.doc g [], group := some g, prev := st.prev } := by
  conv_lhs => unfold walkF
  simp only [hb]
  rw [if_pos hd, if_neg h3, hgd]

theorem walkF_entry (f : Nat) (data : List Nat) (i : Nat) (st st2 : St)
    (b j : Nat) (hb : data[i]? = some b) (hd : is_ipp_delimiter b = false)
    (hpe : processEntry data i st b = .ok (st2, j)) :
    walkF (f + 1) data i st = walkF f data j st2 := by
  conv_lhs => unfold walkF
  simp only [hb]
  rw [if_neg (by rw [hd]; exact Bool.false_ne_true), hpe]

theorem walkF_entry_err (f : Nat) (data : List Nat) (i : Nat) (st : St)
    (b : Nat) (e : Err) (hb : data[i]? = some b)
    (hd : is_ipp_delimiter b = false)
    (hpe : processEntry data i st b = .error e) :
    walkF (f + 1) data i st = .error e := by
  conv_lhs => unfold walkF
  simp only [hb]
  rw [if_neg (by rw [hd]; exact Bool.false_ne_true), hpe]

theorem getElem_some_lt (data : List Nat) (i b : Nat)
    (hb : data[i]? = some b) : i < data.length := by
  by_contra hc
  rw [List.getElem?_eq_none (by omega)] at hb
  cases hb

/-! ### Inductive lemmas about the walker -/

theorem walkF_ok_terminator (f : Nat) :
    ∀ (data : List Nat) (i : Nat) (st : St)
      (d : List (String × List Attr)), walkF f data i st = .ok d →
      ∃ j, j < data.length ∧ data[j]? = some 3 := by
  induction f with
  | zero => intro data i st d h; cases h
  | succ f ih =>
    intro data i st d h
    cases hb : data[i]? with
    | none =>
      rw [walkF_exhaust f data i st (by
        by_contra hc
        rw [List.getElem?_eq_getElem (by omega)] at hb
        cases hb)] at h
      cases h
    | some b =>
      have hib : i < data.length := getElem_some_lt data i b hb
      cases hdel : is_ipp_delimiter b with
      | true =>
        by_cases h3 : b = 3
        · subst h3
          exact ⟨i, hib, hb⟩
        · obtain ⟨g, hg, -⟩ := get_delimiter_name_group b (by
            have := is_ipp_delimiter_cases b hdel
            tauto)
          rw [walkF_delim f data i st b g hb hdel h3 hg] at h
          exact ih data (i + 1) _ d h
      | false =>
        cases hpe : processEntry data i st b with
        | error e =>
          rw [walkF_entry_err f data i st b e hb hdel hpe] at h
          cases h
        | ok r =>
          obtain ⟨st2, j⟩ := r
          rw [walkF_entry f data i st st2 b j hb hdel hpe] at h
          exact ih data j st2 d h

theorem walkF_no_outOfFuel (f : Nat) :
    ∀ (data : List Nat) (i : Nat) (st : St), data.length - i < f →
      walkF f data i st ≠ .error .outOfFuel := by
  induction f with
  | zero => intro data i st hf; omega
  | succ f ih =>
    intro data i st hf h
    cases hb : data[i]? with
    | none =>
      rw [walkF_exhaust f data i st (by
        by_contra hc
        rw [List.getElem?_eq_getElem (by omega)] at hb
        cases hb)] at h
      cases h
    | some b =>
      have hib : i < data.length := getElem_some_lt data i b hb
      cases hdel : is_ipp_delimiter b with
      | true =>
        by_cases h3 : b = 3
        · subst h3
          rw [walkF_term f data i st hb] at h
          cases h
        · obtain ⟨g, hg, -⟩ := get_delimiter_name_group b (by
            have := is_ipp_delimiter_cases b hdel
            tauto)
          rw [walkF_delim f data i st b g hb hdel h3 hg] at h
          exact ih data (i + 1) _ (by omega) h
      | false =>
        cases hpe : processEntry data i st b with
        | error e =>
          rw [walkF_entry_err f data i st b e hb hdel hpe] at h
          cases h
          rcases processEntry_err data i st b _ hpe with
            hh | hh | hh | hh | hh | hh <;> cases hh
        | ok r =>
          obtain ⟨st2, j⟩ := r
          obtain ⟨hij, hjl, -⟩ := processEntry_ok data i st b st2 j hpe
          rw [walkF_entry f data i st st2 b j hb hdel hpe] at h
          exact ih data j st2 (by omega) h

theorem walkF_err_kinds (f : Nat) :
    ∀ (data : List Nat) (i : Nat) (st : St) (e : Err),
      walkF f data i st = .error e →
      e ≠ .readOutOfRange ∧ e ≠ .unsupportedDelimiter := by
  induction f with
  | zero =>
    intro data i st e h
    cases h
    exact ⟨by decide, by decide⟩
  | succ f ih =>
    intro data i st e h
    cases hb : data[i]? with
    | none =>
      rw [walkF_exhaust f data i st (by
        by_contra hc
        rw [List.getElem?_eq_getElem (by omega)] at hb
        cases hb)] at h
      cases h
      exact ⟨by decide, by decide⟩
    | some b =>
      cases hdel : is_ipp_delimiter b with
      | true =>
        by_cases h3 : b = 3
        · subst h3
          rw [walkF_term f data i st hb] at h
          cases h
        · obtain ⟨g, hg, -⟩ := get_delimiter_name_group b (by
            have := is_ipp_delimiter_cases b hdel
            tauto)
          rw [walkF_delim f data i st b g hb hdel h3 hg] at h
          exact ih data (i + 1) _ e h
      | false =>
        cases hpe : processEntry data i st b with
        | error e2 =>
          rw [walkF_entry_err f data i st b e2 hb hdel hpe] at h
          cases h
          rcases processEntry_err data i st b _ hpe with
            hh | hh | hh | hh | hh | hh <;> subst hh <;>
            exact ⟨by decide, by decide⟩
        | ok r =>
          obtain ⟨st2, j⟩ := r
          rw [walkF_entry f data i st st2 b j hb hdel hpe] at h
          exact ih data j st2 e h

theorem walkF_keys (f : Nat) :
    ∀ (data : List Nat) (i : Nat) (st : St)
      (d : List (String × List Attr)), walkF f data i st = .ok d →
      (∀ a ∈ st.doc.map Prod.fst, a ≠ "endOfAttributes") →
      ∀ a ∈ d.map Prod.fst, a ≠ "endOfAttributes" := by
  induction f with
  | zero => intro data i st d h; cases h
  | succ f ih =>
    intro data i st d h hpre
    cases hb : data[i]? with
    | none =>
      rw [walkF_exhaust f data i st (by
        by_contra hc
        rw [List.getElem?_eq_getElem (by omega)] at hb
        cases hb)] at h
      cases h
    | some b =>
      cases hdel : is_ipp_delimiter b with
      | true =>
        by_cases h3 : b = 3
        · subst h3
          rw [walkF_term f data i st hb] at h
          cases h
          exact hpre
        · obtain ⟨g, hg, hgne⟩ := get_delimiter_name_group b (by
            have := is_ipp_delimiter_cases b hdel
            tauto)
          rw [walkF_delim f data i st b g hb hdel h3 hg] at h
          refine ih data (i + 1) _ d h ?_
          intro a ha
          rcases setKey_fst_mem st.doc g [] a ha with hh | hh
          · exact hpre a hh
          · subst hh
            exact hgne
      | false =>
        cases hpe : processEntry data i st b with
        | error e =>
          rw [walkF_entry_err f data i st b e hb hdel hpe] at h
          cases h
        | ok r =>
          obtain ⟨st2, j⟩ := r
          rw [walkF_entry f data i st st2 b j hb hdel hpe] at h
          refine ih data j st2 d h ?_
          intro a ha
          exact hpre a (processEntry_keys data i st b st2 j hpe a ha)

theorem walkF_mono_append (f : Nat) :
    ∀ (f2 : Nat) (data t : List Nat) (i : Nat) (st : St)
      (d : List (String × List Attr)), walkF f data i st = .ok d →
      f ≤ f2 → walkF f2 (data ++ t) i st = .ok d := by
  induction f with
  | zero => intro f2 data t i st d h; cases h
  | succ f ih =>
    intro f2 data t i st d h hle
    obtain ⟨f3, rfl⟩ : ∃ f3, f2 = f3 + 1 := ⟨f2 - 1, by omega⟩
    cases hb : data[i]? with
    | none =>
      rw [walkF_exhaust f data i st (by
        by_contra hc
        rw [List.getElem?_eq_getElem (by omega)] at hb
        cases hb)] at h
      cases h
    | some b =>
      have hib : i < data.length := getElem_some_lt data i b hb
      have hab : (data ++ t)[i]? = some b := by
        rw [List.getElem?_append_left hib]
        exact hb
      cases hdel : is_ipp_delimiter b with
      | true =>
        by_cases h3 : b = 3
        · subst h3
          rw [walkF_term f data i st hb] at h
          rw [walkF_term f3 (data ++ t) i st hab]
          exact h
        · obtain ⟨g, hg, -⟩ := get_delimiter_name_group b (by
            have := is_ipp_delimiter_cases b hdel
            tauto)
          rw [walkF_delim f data i st b g hb hdel h3 hg] at h
          rw [walkF_delim f3 (data ++ t) i st b g hab hdel h3 hg]
          exact ih f3 data t (i + 1) _ d h (by omega)
      | false =>
        cases hpe : processEntry data i st b with
        | error e =>
          rw [walkF_entry_err f data i st b e hb hdel hpe] at h
          cases h
        | ok r =>
          obtain ⟨st2, j⟩ := r
          rw [walkF_entry f data i st st2 b j hb hdel hpe] at h
          rw [walkF_entry f3 (data ++ t) i st st2 b j hab hdel
            (processEntry_append data t i st b (st2, j) hpe)]
          exact ih f3 data t j st2 d h (by omega)

theorem extendValue_notList (v w : PyVal) (h : v.isList = false) :
    extendValue v w = .list [v, w] := by
  cases v with
  | str s => rfl
  | int n => rfl
  | bool b => rfl
  | list l => simp [PyVal.isList] at h

/-! ### Claim theorems -/

/-- C1 (code bug): the spec says the fold type-comparison memory resets
whenever a new group begins, so the first entry of a new group is
appended rather than folded.  The code never resets `prev_value_type` at
a group delimiter, so on a stream where a new group's first entry has
the same value type as the last entry before the delimiter and a
zero-length name, the fold branch runs `attributes[group][-1]` on the
new group's empty list and crashes with an IndexError.  This theorem
evaluates the code at such an input. -/
theorem c1_new_group_first_entry_crashes :
    main_parse [1, 0x21, 0, 0, 0, 4, 0, 0, 0, 5,
                2, 0x21, 0, 0, 0, 4, 0, 0, 0, 7, 3] =
      .error .indexErrorEmptyGroup := rfl

/-- C2 counterexample: the byte `0x99` appears in the stream (inside a
name field) yet the parse succeeds and returns a document, so "0x99
anywhere aborts the parse" is false as stated. -/
theorem c2_byte_0x99_inside_name_parses :
    (0x99 ∈ [1, 0x47, 0, 1, 0x99, 0, 0, 3]) ∧
    main_parse [1, 0x47, 0, 1, 0x99, 0, 0, 3] =
      .ok [("operationAttributes",
            [{ type := "charset", name := String.mk [Char.ofNat 0x99],
               value := .str "" }])] := ⟨by decide, rfl⟩

/-- C2 (amended): whenever the walker examines the byte `0x99` at a tag
position, the parse aborts with `UnsupportedValueTag` and produces no
document; in particular a stream starting with `0x99` aborts that way. -/
theorem c2_value_tag_0x99_aborts (f : Nat) (data : List Nat) (i : Nat)
    (st : St) :
    (data[i]? = some 0x99 →
      walkF (f + 1) data i st = .error .unsupportedValueTag) ∧
    (data[0]? = some 0x99 →
      main_parse data = .error .unsupportedValueTag) := by
  have hgen : ∀ (f2 i2 : Nat) (st2 : St), data[i2]? = some 0x99 →
      walkF (f2 + 1) data i2 st2 = .error .unsupportedValueTag := by
    intro f2 i2 st2 hb
    refine walkF_entry_err f2 data i2 st2 0x99 _ hb rfl ?_
    unfold processEntry
    rfl
  exact ⟨hgen f i st, fun hb => hgen data.length 0 _ hb⟩

theorem c2_value_tag_0x99_aborts_witness :
    main_parse [0x99] = .error .unsupportedValueTag :=
  (c2_value_tag_0x99_aborts 0 [0x99] 0
    { doc := [], group := none, prev := none }).2 rfl

/-- C3 counterexample: a stream whose first classified tag is a value tag
but which is truncated fails with `OutOfBounds`, not with the
missing-group error, so "fails with ValueBeforeGroup" is false as
universally stated. -/
theorem c3_truncated_first_entry_out_of_bounds :
    is_ipp_delimiter 0x21 = false ∧ get_value_type 0x21 = .ok "integer" ∧
    main_parse [0x21] = .error .outOfBounds ∧
    Err.outOfBounds ≠ Err.keyErrorNoGroup := ⟨rfl, rfl, rfl, by decide⟩

/-- C3 (amended): when the first classified tag is a value tag, the parse
always fails (it never yields a document); the failure is the
missing-group lookup error (the code's realization of ValueBeforeGroup:
a Python KeyError on `attributes[None]`) exactly when the entry's name
and value extract successfully, and the extraction's own error
otherwise. -/
theorem c3_value_before_group_fails (data : List Nat) (b : Nat) (t : String)
    (hb : data[0]? = some b) (hd : is_ipp_delimiter b = false)
    (ht : get_value_type b = .ok t) :
    (∀ d, main_parse data ≠ .ok d) ∧
    (∀ nl c1 nm c2 vl c3 v c4,
      extract_length data 1 = .ok (nl, c1) →
      extract_string_value data c1 nl = .ok (nm, c2) →
      extract_length data c2 = .ok (vl, c3) →
      extract_value data t c3 vl = .ok (v, c4) →
      main_parse data = .error .keyErrorNoGroup) := by
  constructor
  · intro d hok
    unfold main_parse at hok
    cases hpe : processEntry data 0 { doc := [], group := none, prev := none } b with
    | error e =>
      rw [walkF_entry_err data.length data 0 _ b e hb hd hpe] at hok
      cases hok
    | ok r =>
      exact processEntry_none_not_ok data 0 _ b rfl rfl r hpe
  · intro nl c1 nm c2 vl c3 v c4 hn hs hl hv
    unfold main_parse
    refine walkF_entry_err data.length data 0 _ b _ hb hd ?_
    exact processEntry_eval_err data 0 _ b t nm nl c1 c2 vl c3 c4 v
      .keyErrorNoGroup ht hn hs hl hv rfl rfl

theorem c3_value_before_group_fails_witness :
    main_parse [0x21, 0, 0, 0, 4, 0, 0, 0, 5] = .error .keyErrorNoGroup :=
  (c3_value_before_group_fails [0x21, 0, 0, 0, 4, 0, 0, 0, 5] 0x21 "integer"
    rfl rfl rfl).2 0 3 "" 3 4 5 (.int 5) 9 rfl rfl rfl rfl

/-- C4 counterexample: the dispatcher `extract_value` checks the data
boundary before the fixed-length check, so a boolean entry with declared
length 2 over a 1-byte remainder is rejected with `OutOfBounds`, not
`InvalidFixedLength`. -/
theorem c4_boundary_check_precedes_fixed_length :
    (2 : Nat) ≠ 1 ∧ extract_value [0] "boolean" 0 2 = .error .outOfBounds ∧
    Err.outOfBounds ≠ Err.invalidFixedLength := ⟨by decide, rfl, by decide⟩

/-- C4 (amended): for every fixed-size value type (boolean 1, integer 4,
enum 4, resolution 9, rangeOfInteger 8) and every declared length other
than the required size, the decoder rejects the entry with
`InvalidFixedLength`, provided the declared length does not overrun the
remaining data (otherwise the dispatcher's boundary check reports
`OutOfBounds` first). -/
theorem c4_fixed_length_enforced (data : List Nat) (vt : String)
    (s L r : Nat)
    (hm : (vt, r) ∈ [("boolean", 1), ("integer", 4), ("enum", 4),
                     ("resolution", 9), ("rangeOfInteger", 8)])
    (hL : L ≠ r) (hbound : s + L ≤ data.length) :
    extract_value data vt s L = .error .invalidFixedLength := by
  have hcdb := (check_data_boundary_ok_iff data s L).mpr hbound
  simp only [List.mem_cons, List.not_mem_nil, or_false, Prod.mk.injEq] at hm
  unfold extract_value
  simp only [hcdb]
  rcases hm with ⟨rfl, rfl⟩ | ⟨rfl, rfl⟩ | ⟨rfl, rfl⟩ | ⟨rfl, rfl⟩ | ⟨rfl, rfl⟩
  · show run_extractor .booleanE data s L = .error .invalidFixedLength
    unfold run_extractor extract_boolean_value
    rw [if_pos hL]
    rfl
  · show run_extractor .integerE data s L = .error .invalidFixedLength
    unfold run_extractor extract_integer_value
    rw [if_pos hL]
    rfl
  · show run_extractor .integerE data s L = .error .invalidFixedLength
    unfold run_extractor extract_integer_value
    rw [if_pos hL]
    rfl
  · show run_extractor .resolutionE data s L = .error .invalidFixedLength
    unfold run_extractor extract_resolution_value
    rw [if_pos hL]
    rfl
  · show run_extractor .rangeE data s L = .error .invalidFixedLength
    unfold run_extractor extract_range_value
    rw [if_pos hL]
    rfl

theorem c4_fixed_length_enforced_witness :
    extract_value [0, 0] "boolean" 0 2 = .error .invalidFixedLength :=
  c4_fixed_length_enforced [0, 0] "boolean" 0 2 1 (by decide) (by decide)
    (by decide)

/-- C5 (confirmed): the walker yields a document exactly by reaching the
terminator `0x03` at a tag position - whenever the cursor examines a
position holding `0x03`, the walk stops successfully with the document
built so far, whatever the state; if the cursor exhausts the stream (in
any state, including the empty stream), the walk fails with
`UnterminatedMessage`; and a successful walk implies a terminator byte
was present in the stream.  `Failed` never yields a partial document:
the result type returns a document only through `Except.ok`. -/
theorem c5_terminator_iff_document (f : Nat) (data : List Nat) (i : Nat)
    (st : St) :
    (data.length ≤ i →
      walkF (f + 1) data i st = .error .unterminatedMessage) ∧
    (data[i]? = some 3 → walkF (f + 1) data i st = .ok st.doc) ∧
    (∀ d, walkF f data i st = .ok d →
      ∃ j, j < data.length ∧ data[j]? = some 3) ∧
    main_parse [] = .error .unterminatedMessage :=
  ⟨fun h => walkF_exhaust f data i st h,
   fun h => walkF_term f data i st h,
   fun d h => walkF_ok_terminator f data i st d h,
   rfl⟩

theorem c5_terminator_iff_document_witness :
    (walkF 1 [3] 0 { doc := [], group := none, prev := none } = .ok []) ∧
    (walkF 1 [] 0 { doc := [], group := none, prev := none } =
      .error .unterminatedMessage) ∧
    (∃ j, j < 1 ∧ [3][j]? = some 3) :=
  ⟨(c5_terminator_iff_document 0 [3] 0
      { doc := [], group := none, prev := none }).2.1 rfl,
   (c5_terminator_iff_document 0 [] 0
      { doc := [], group := none, prev := none }).1 (by decide),
   (c5_terminator_iff_document 1 ([3] : List Nat) 0
      { doc := [], group := none, prev := none }).2.2.1 [] rfl⟩

theorem extend_attribute_values_eval2 (doc : List (String × List Attr))
    (g : String) (l : List Attr) (ty nm : String) (va v : PyVal)
    (hlk : List.lookup g doc = some (l ++ [{ type := ty, name := nm,
                                             value := va }])) :
    extend_attribute_values doc (some g) v =
      .ok (setKey doc g (l ++ [{ type := ty, name := nm,
                                 value := extendValue va v }])) :=
  extend_attribute_values_eval doc g l { type := ty, name := nm, value := va }
    v hlk

/-- C6 counterexample: folding two zero-named octetString entries does
not produce the value `[v1, v2]`; because `v1` is itself decoded as a
Python list, the second value is appended into it, yielding
`v1 ++ [v2]` (here `[0xaa, [0xbb]]` instead of `[[0xaa], [0xbb]]`). -/
theorem c6_list_valued_fold_nests :
    main_parse [1, 0x30, 0, 0, 0, 1, 0xaa, 0x30, 0, 0, 0, 1, 0xbb, 3] =
      .ok [("operationAttributes",
            [{ type := "octetString", name := "",
               value := .list [.int 0xaa, .list [.int 0xbb]] }])] ∧
    PyVal.list [.int 0xaa, .list [.int 0xbb]] ≠
      PyVal.list [.list [.int 0xaa], .list [.int 0xbb]] :=
  ⟨rfl, by simp⟩

/-- C6 (amended): within a single active group, two consecutive value
entries of identical classified type where the second has zero-length
name produce one attribute whose value is the ordered list `[v1, v2]`,
and a third consecutive same-typed zero-named entry extends it to
`[v1, v2, v3]` - provided the first value `v1` is not itself decoded as
a Python list (i.e. the type is not octetString/dateTime/resolution/
rangeOfInteger); for a list-decoded `v1` the fold appends into `v1`
instead. -/
theorem c6_fold_law_scalar (f : Nat) (data : List Nat) (i i1 i2 i3 : Nat)
    (st : St) (g t nm1 nm2 nm3 : String) (nl1 : Nat) (as : List Attr)
    (v1 v2 v3 : PyVal)
    (hg : st.group = some g)
    (hlk : List.lookup g st.doc = some as)
    (he1 : EncodesEntry data i t nl1 nm1 v1 i1)
    (hfirst : (st.prev == some t && nl1 == 0) = false)
    (he2 : EncodesEntry data i1 t 0 nm2 v2 i2)
    (he3 : EncodesEntry data i2 t 0 nm3 v3 i3)
    (hv1 : v1.isList = false) :
    ∃ st2 st3,
      walkF (f + 2) data i st = walkF f data i2 st2 ∧
      List.lookup g st2.doc =
        some (as ++ [{ type := t, name := nm1, value := .list [v1, v2] }]) ∧
      walkF (f + 3) data i st = walkF f data i3 st3 ∧
      List.lookup g st3.doc =
        some (as ++ [{ type := t, name := nm1,
                       value := .list [v1, v2, v3] }]) ∧
      st3.group = some g ∧ st3.prev = some t := by
  obtain ⟨b1, c1, c2, vl1, c3, hb1, hd1, ht1, hn1, hs1, hl1, hv1e⟩ := he1
  obtain ⟨b2, d1, d2, vl2, d3, hb2, hd2, ht2, hn2, hs2, hl2, hv2e⟩ := he2
  obtain ⟨b3, e1, e2b, vl3, e3, hb3, hd3, ht3, hn3, hs3, hl3, hv3e⟩ := he3
  -- first entry: appended as a fresh attribute
  have hadd1 : add_attribute st.doc st.group t nm1 v1 =
      .ok (setKey st.doc g
        (as ++ [{ type := t, name := nm1, value := v1 }])) := by
    rw [hg]
    exact add_attribute_eval st.doc g as t nm1 v1 hlk
  have hpe1 := processEntry_eval_add data i st b1 t nm1 nl1 c1 c2 vl1 c3 i1 v1
    _ ht1 hn1 hs1 hl1 hv1e hfirst hadd1
  have hstep1 : ∀ f0, walkF (f0 + 1) data i st =
      walkF f0 data i1
        { doc := setKey st.doc g
            (as ++ [{ type := t, name := nm1, value := v1 }]),
          group := st.group, prev := some t } :=
    fun f0 => walkF_entry f0 data i st _ b1 i1 hb1 hd1 hpe1
  -- second entry: folds, wrapping v1 into a list
  have hlk1 : List.lookup g (setKey st.doc g
      (as ++ [{ type := t, name := nm1, value := v1 }])) =
      some (as ++ [{ type := t, name := nm1, value := v1 }]) :=
    lookup_setKey_self st.doc g _
  have hext2 : extend_attribute_values
      (setKey st.doc g (as ++ [{ type := t, name := nm1, value := v1 }]))
      st.group v2 =
      .ok (setKey
        (setKey st.doc g (as ++ [{ type := t, name := nm1, value := v1 }]))
        g (as ++ [{ type := t, name := nm1, value := .list [v1, v2] }])) := by
    rw [hg]
    have h0 := extend_attribute_values_eval2
      (setKey st.doc g (as ++ [{ type := t, name := nm1, value := v1 }]))
      g as t nm1 v1 v2 hlk1
    rw [extendValue_notList v1 v2 hv1] at h0
    exact h0
  have hpe2 := processEntry_eval_extend data i1
    { doc := setKey st.doc g
        (as ++ [{ type := t, name := nm1, value := v1 }]),
      group := st.group, prev := some t }
    b2 t nm2 0 d1 d2 vl2 d3 i2 v2 _ ht2 hn2 hs2 hl2 hv2e (by simp) hext2
  have hstep2 : ∀ f0, walkF (f0 + 1) data i1
      { doc := setKey st.doc g
          (as ++ [{ type := t, name := nm1, value := v1 }]),
        group := st.group, prev := some t } =
      walkF f0 data i2
        { doc := setKey
            (setKey st.doc g
              (as ++ [{ type := t, name := nm1, value := v1 }]))
            g (as ++ [{ type := t, name := nm1, value := .list [v1, v2] }]),
          group := st.group, prev := some t } :=
    fun f0 => walkF_entry f0 data i1 _ _ b2 i2 hb2 hd2 hpe2
  -- third entry: folds again, extending the list
  have hlk2 : List.lookup g (setKey
      (setKey st.doc g (as ++ [{ type := t, name := nm1, value := v1 }]))
      g (as ++ [{ type := t, name := nm1, value := .list [v1, v2] }])) =
      some (as ++ [{ type := t, name := nm1, value := .list [v1, v2] }]) :=
    lookup_setKey_self _ g _
  have hext3 : extend_attribute_values
      (setKey
        (setKey st.doc g (as ++ [{ type := t, name := nm1, value := v1 }]))
        g (as ++ [{ type := t, name := nm1, value := .list [v1, v2] }]))
      st.group v3 =
      .ok (setKey
        (setKey
          (setKey st.doc g (as ++ [{ type := t, name := nm1, value := v1 }]))
          g (as ++ [{ type := t, name := nm1, value := .list [v1, v2] }]))
        g (as ++ [{ type := t, name := nm1,
                    value := .list [v1, v2, v3] }])) := by
    rw [hg]
    exact extend_attribute_values_eval2 _ g as t nm1 (.list [v1, v2]) v3 hlk2
  have hpe3 := processEntry_eval_extend data i2
    { doc := setKey
        (setKey st.doc g (as ++ [{ type := t, name := nm1, value := v1 }]))
        g (as ++ [{ type := t, name := nm1, value := .list [v1, v2] }]),
      group := st.group, prev := some t }
    b3 t nm3 0 e1 e2b vl3 e3 i3 v3 _ ht3 hn3 hs3 hl3 hv3e (by simp) hext3
  have hstep3 : ∀ f0, walkF (f0 + 1) data i2
      { doc := setKey
          (setKey st.doc g
            (as ++ [{ type := t, name := nm1, value := v1 }]))
          g (as ++ [{ type := t, name := nm1, value := .list [v1, v2] }]),
        group := st.group, prev := some t } =
      walkF f0 data i3
        { doc := setKey
            (setKey
              (setKey st.doc g
                (as ++ [{ type := t, name := nm1, value := v1 }]))
              g (as ++ [{ type := t, name := nm1,
                          value := .list [v1, v2] }]))
            g (as ++ [{ type := t, name := nm1,
                        value := .list [v1, v2, v3] }]),
          group := st.group, prev := some t } :=
    fun f0 => walkF_entry f0 data i2 _ _ b3 i3 hb3 hd3 hpe3
  refine ⟨_, _, (hstep1 (f + 1)).trans (hstep2 f), lookup_setKey_self _ g _,
    (hstep1 (f + 2)).trans ((hstep2 (f + 1)).trans (hstep3 f)),
    lookup_setKey_self _ g _, hg, rfl⟩

theorem c6_fold_law_scalar_witness :
    ∃ st3, walkF 4
        [0x21, 0, 1, 0x61, 0, 4, 0, 0, 0, 5, 0x21, 0, 0, 0, 4, 0, 0, 0, 6,
         0x21, 0, 0, 0, 4, 0, 0, 0, 7, 3] 0
        { doc := [("operationAttributes", [])],
          group := some "operationAttributes", prev := none } =
      walkF 1
        [0x21, 0, 1, 0x61, 0, 4, 0, 0, 0, 5, 0x21, 0, 0, 0, 4, 0, 0, 0, 6,
         0x21, 0, 0, 0, 4, 0, 0, 0, 7, 3] 28 st3 ∧
      List.lookup "operationAttributes" st3.doc =
        some [{ type := "integer", name := "a",
                value := .list [.int 5, .int 6, .int 7] }] := by
  obtain ⟨st2, st3, h2, hl2, h3, hl3, hg3, hp3⟩ := c6_fold_law_scalar 1
    [0x21, 0, 1, 0x61, 0, 4, 0, 0, 0, 5, 0x21, 0, 0, 0, 4, 0, 0, 0, 6,
     0x21, 0, 0, 0, 4, 0, 0, 0, 7, 3] 0 10 19 28
    { doc := [("operationAttributes", [])],
      group := some "operationAttributes", prev := none }
    "operationAttributes" "integer" "a" "" "" 1 [] (.int 5) (.int 6) (.int 7)
    rfl rfl
    ⟨0x21, 3, 4, 4, 6, rfl, rfl, rfl, rfl, rfl, rfl, rfl⟩
    rfl
    ⟨0x21, 13, 13, 4, 15, rfl, rfl, rfl, rfl, rfl, rfl, rfl⟩
    ⟨0x21, 22, 22, 4, 24, rfl, rfl, rfl, rfl, rfl, rfl, rfl⟩
    rfl
  exact ⟨st3, h3, hl3⟩

/-- C7 (confirmed): bounds safety.  Whenever a declared length (a 2-byte
length field, or the name/value bytes it announces) cannot be satisfied
from the remaining input, the extraction reports `OutOfBounds`; and no
read ever accesses an index past the end of the stream: the
`readOutOfRange` failure that models a Python IndexError on `data[i]` is
never returned by the walk, for any input and any state. -/
theorem c7_bounds_safety (f : Nat) (data : List Nat) (i : Nat) (st : St)
    (s L : Nat) (vt : String) :
    walkF f data i st ≠ .error .readOutOfRange ∧
    main_parse data ≠ .error .readOutOfRange ∧
    (data.length < s + L →
      extract_string_value data s L = .error .outOfBounds) ∧
    (data.length < s + 2 → extract_length data s = .error .outOfBounds) ∧
    (data.length < s + L →
      extract_value data vt s L = .error .outOfBounds) := by
  refine ⟨fun h => (walkF_err_kinds f data i st _ h).1 rfl,
    fun h => (walkF_err_kinds (data.length + 1) data 0 _ _ h).1 rfl,
    fun h => ?_, fun h => ?_, fun h => ?_⟩
  · have hcdb : check_data_boundary data s L = .error .outOfBounds := by
      unfold check_data_boundary
      rw [if_pos h]
    unfold extract_string_value
    simp only [hcdb]
  · have hcdb : check_data_boundary data s 2 = .error .outOfBounds := by
      unfold check_data_boundary
      rw [if_pos h]
    unfold extract_length
    simp only [hcdb]
  · have hcdb : check_data_boundary data s L = .error .outOfBounds := by
      unfold check_data_boundary
      rw [if_pos h]
    unfold extract_value
    simp only [hcdb]

theorem c7_bounds_safety_witness :
    (extract_string_value [0x61] 0 2 = .error .outOfBounds) ∧
    (extract_length [0] 0 = .error .outOfBounds) ∧
    (extract_value [0] "integer" 0 4 = .error .outOfBounds) :=
  ⟨(c7_bounds_safety 0 [] 0 { doc := [], group := none, prev := none }
      0 2 "integer").2.2.1 (by decide),
   (c7_bounds_safety 0 [] 0 { doc := [], group := none, prev := none }
      0 2 "integer").2.2.2.1 (by decide),
   (c7_bounds_safety 0 [] 0 { doc := [], group := none, prev := none }
      0 4 "integer").2.2.2.2 (by decide)⟩

/-- C8 (confirmed): if parsing `t` succeeds with document `d`, then
parsing `t ++ s` also succeeds with the same document, for every suffix
`s`: bytes after the first terminator reached at a tag position are
never read and never cause an error. -/
theorem c8_suffix_bytes_ignored (t s : List Nat)
    (d : List (String × List Attr)) (h : main_parse t = .ok d) :
    main_parse (t ++ s) = .ok d := by
  unfold main_parse at h ⊢
  exact walkF_mono_append (t.length + 1) ((t ++ s).length + 1) t s 0 _ d h
    (by rw [List.length_append]; omega)

theorem c8_suffix_bytes_ignored_witness :
    main_parse ([1, 3] ++ [0xde, 0xad]) = .ok [("operationAttributes", [])] :=
  c8_suffix_bytes_ignored [1, 3] [0xde, 0xad] [("operationAttributes", [])] rfl

/-- C9 (confirmed): every extraction function advances the cursor
monotonically - a successful extraction starting at `s` returns a new
cursor `c` with `s ≤ c` - and respects the invariant `c ≤ data.length`,
so the cursor always satisfies `0 ≤ c ≤ length`. -/
theorem c9_cursor_monotone_bounded (data : List Nat) (s L : Nat)
    (vt : String) :
    (∀ v c, extract_length data s = .ok (v, c) →
      s ≤ c ∧ c ≤ data.length) ∧
    (∀ v c, extract_string_value data s L = .ok (v, c) →
      s ≤ c ∧ c ≤ data.length) ∧
    (∀ v c, extract_byte_value data s L = .ok (v, c) →
      s ≤ c ∧ c ≤ data.length) ∧
    (∀ v c, extract_boolean_value data s L = .ok (v, c) →
      s ≤ c ∧ c ≤ data.length) ∧
    (∀ v c, extract_integer_value data s L = .ok (v, c) →
      s ≤ c ∧ c ≤ data.length) ∧
    (∀ v c, extract_bytes_value data s L = .ok (v, c) →
      s ≤ c ∧ c ≤ data.length) ∧
    (∀ v c, extract_resolution_value data s L = .ok (v, c) →
      s ≤ c ∧ c ≤ data.length) ∧
    (∀ v c, extract_range_value data s L = .ok (v, c) →
      s ≤ c ∧ c ≤ data.length) ∧
    (∀ v c, extract_value data vt s L = .ok (v, c) →
      s ≤ c ∧ c ≤ data.length) := by
  refine ⟨fun v c h => ?_, fun v c h => ?_, fun v c h => ?_, fun v c h => ?_,
    fun v c h => ?_, fun v c h => ?_, fun v c h => ?_, fun v c h => ?_,
    fun v c h => ?_⟩
  · obtain ⟨hc, hb⟩ := extract_length_ok data s v c h
    omega
  · obtain ⟨hc, hb⟩ := extract_string_value_ok data s L v c h
    omega
  · obtain ⟨hL, hc, hb⟩ := extract_byte_value_ok data s L v c h
    omega
  · obtain ⟨hL, hc, hb⟩ := extract_boolean_value_ok data s L v c h
    omega
  · obtain ⟨hL, hc, hb⟩ := extract_integer_value_ok data s L v c h
    omega
  · obtain ⟨hc, hb⟩ := extract_bytes_value_ok data s L v c h
    omega
  · obtain ⟨hL, hc, hb⟩ := extract_resolution_value_ok data s L v c h
    omega
  · obtain ⟨hL, hc, hb⟩ := extract_range_value_ok data s L v c h
    omega
  · obtain ⟨hc, hb⟩ := extract_value_ok data vt s L v c h
    omega

theorem c9_cursor_monotone_bounded_witness :
    extract_length [0, 4] 0 = .ok (4, 2) ∧ (0 ≤ 2 ∧ 2 ≤ 2) :=
  ⟨rfl, (c9_cursor_monotone_bounded [0, 4] 0 0 "integer").1 4 2 rfl⟩

/-- C10 (confirmed): the parse never fails with the
unsupported-delimiter error - the delimiter-name lookup is only reached
on bytes in the delimiter set with `0x03` already excluded, so its
failure branch is unreachable from the walker - and the name
`endOfAttributes` never appears as a key of the output document. -/
theorem c10_no_unsupported_delimiter (f : Nat) (data : List Nat) (i : Nat)
    (st : St) :
    walkF f data i st ≠ .error .unsupportedDelimiter ∧
    main_parse data ≠ .error .unsupportedDelimiter ∧
    (∀ d, main_parse data = .ok d →
      "endOfAttributes" ∉ d.map Prod.fst) := by
  refine ⟨fun h => (walkF_err_kinds f data i st _ h).2 rfl,
    fun h => (walkF_err_kinds (data.length + 1) data 0 _ _ h).2 rfl,
    fun d h hmem => ?_⟩
  exact walkF_keys (data.length + 1) data 0 _ d h (by simp) "endOfAttributes"
    hmem rfl

theorem c10_no_unsupported_delimiter_witness :
    "endOfAttributes" ∉
      ([("operationAttributes", [])] :
        List (String × List Attr)).map Prod.fst :=
  (c10_no_unsupported_delimiter 0 [1, 3] 0
    { doc := [], group := none, prev := none }).2.2
    [("operationAttributes", [])] rfl
